import Mathlib

/-!
# Verification of the gs-convert Apple IIgs image converter

Shallow embedding of the core of `gs_convert` (color conversion,
median-cut quantization, palette-assignment strategies, dithering,
and the `.3200` packer/unpacker), together with theorems settling the
frozen claims about the natural-language specification.

Conventions used throughout the embedding:

* Python/numpy `uint8` values are modelled as `ℕ` kept below 256 by the
  operations themselves; numpy's modular `uint8` arithmetic (which wraps
  on subtraction and on squaring) is modelled explicitly with `% 256`.
* Python floats are modelled exactly where the source's float expressions
  are provably exact integer maps on their actual domains
  (`int(c/255.0*15+0.5)` equals `(30*c+255)/510` for every `c ≤ 255`, and
  `int(n/15.0*255)` equals `17*n` for every `n ≤ 15`, both checked over
  all IEEE-754 doubles in range); error-diffusion working buffers are
  modelled over `ℚ`.
* A raised `ValueError` is modelled as `Option.none`.
-/

/-- An 8-bit-per-channel RGB pixel `(r, g, b)`. -/
abbrev Pixel : Type := ℕ × ℕ × ℕ

/-- A palette: a list of RGB colors (16 entries for the IIgs). -/
abbrev Palette : Type := List Pixel

/-- A bucket of pixels inside the median-cut quantizer. -/
abbrev Bucket : Type := List Pixel

/-! ## numpy uint8 arithmetic -/

/-- numpy `uint8` subtraction `a - b`, which wraps modulo 256. -/
def sub8 (a b : ℕ) : ℕ := (a % 256 + 256 - b % 256) % 256

/-- numpy `uint8` squaring `d ** 2`, which wraps modulo 256. -/
def sq8 (d : ℕ) : ℕ := d * d % 256

/-- The squared distance between two pixels as computed by
`np.sum((palette - pixel) ** 2)` on `uint8` arrays: each per-channel
difference and its square wrap modulo 256 (`uint8`), while the final sum
is accumulated in a wide integer (no wrap). Used by
`quantize._find_color_index`, `color.find_closest_palette_color` and
`dither.Ditherer._find_closest_color` when both arguments are `uint8`. -/
def wdistPix (q p : Pixel) : ℕ :=
  sq8 (sub8 q.1 p.1) + sq8 (sub8 q.2.1 p.2.1) + sq8 (sub8 q.2.2 p.2.2)

/-! ## argmin / argmax with first-occurrence tie breaking

`np.argmin`/`np.argmax` return the first occurrence of the extremum, and
all hand-written loops in the source update their best value only on a
strict improvement, which is the same tie-breaking rule. -/

/-- Index of the first minimum of a list (0 on the empty list). -/
def firstArgmin [LinearOrder α] : List α → ℕ
  | [] => 0
  | v :: vs =>
    let j := firstArgmin vs
    if v ≤ vs.getD j v then 0 else j + 1

/-- Index of the first maximum of a list (0 on the empty list). -/
def firstArgmax [LinearOrder α] : List α → ℕ
  | [] => 0
  | v :: vs =>
    let j := firstArgmax vs
    if vs.getD j v > v then j + 1 else 0

/-! ## Color conversion (`color.py`) -/

/-- One 8-bit channel to a 4-bit nibble: the source computes
`int(channel / 255.0 * 15 + 0.5)` in IEEE doubles, which for every
`c ≤ 255` equals the exact rational `⌊c·15/255 + 1/2⌋ = (30·c + 255)/510`
(the exact value is never closer than `1/34` to an integer boundary, far
outside double rounding error). -/
def to4bit (c : ℕ) : ℕ := (30 * c + 255) / 510

/-- One 4-bit nibble back to an 8-bit channel: the source computes
`int(nibble / 15.0 * 255)` in IEEE doubles, which equals `17·n` for every
`n ≤ 15` (checked over all 16 doubles); `n·255/15` is the same value. -/
def to8bit (n : ℕ) : ℕ := n * 255 / 15

/-- `color.rgb24_to_iigs12`: pack an RGB-24 triple into the IIgs 12-bit
word `0000_BBBB_GGGG_RRRR` (`(b4 << 8) | (g4 << 4) | r4`; the nibbles are
disjoint, so the bitwise-or is plain addition). -/
def rgb24_to_iigs12 (rgb : Pixel) : ℕ :=
  256 * to4bit rgb.2.2 + 16 * to4bit rgb.2.1 + to4bit rgb.1

/-- `color.iigs12_to_rgb24`: unpack an IIgs 12-bit word into an RGB-24
triple (`r4 = color & 0xF`, `g4 = (color >> 4) & 0xF`,
`b4 = (color >> 8) & 0xF`). -/
def iigs12_to_rgb24 (color : ℕ) : Pixel :=
  (to8bit (color % 16), to8bit (color / 16 % 16), to8bit (color / 256 % 16))

/-! ## Lexicographic pixel order (for `np.unique`) -/

/-- Lexicographic order on RGB triples, `R` most significant —
the row order produced by `np.unique(..., axis=0)`. -/
def lexLe (p q : Pixel) : Prop :=
  p.1 < q.1 ∨ (p.1 = q.1 ∧ (p.2.1 < q.2.1 ∨ (p.2.1 = q.2.1 ∧ p.2.2 ≤ q.2.2)))

instance : DecidableRel lexLe := fun p q => by
  unfold lexLe; infer_instance

instance : IsTotal Pixel lexLe where
  total p q := by
    rcases p with ⟨a, b, c⟩; rcases q with ⟨d, e, f⟩
    simp only [lexLe]; omega

instance : IsTrans Pixel lexLe where
  trans p q r := by
    rcases p with ⟨a, b, c⟩; rcases q with ⟨d, e, f⟩; rcases r with ⟨g, h, i⟩
    simp only [lexLe]; omega

/-- `np.unique(pixels, axis=0)`: the distinct pixels in ascending
lexicographic `(R, G, B)` order. -/
def npUnique (l : List Pixel) : List Pixel :=
  (List.insertionSort lexLe l).dedup

/-! ## Median-cut quantizer (`quantize.py`) -/

/-- Maximum of a list of naturals (`bucket.max(axis=0)` per channel);
0 on the empty list (the source only evaluates it on nonempty buckets). -/
def listMax (l : List ℕ) : ℕ := l.foldr max 0

/-- Minimum of a nonempty list of naturals (`bucket.min(axis=0)` per
channel); 0 on the empty list. -/
def listMin : List ℕ → ℕ
  | [] => 0
  | a :: as => as.foldr min a

/-- Red channel of a pixel. -/
def chR (p : Pixel) : ℕ := p.1

/-- Green channel of a pixel. -/
def chG (p : Pixel) : ℕ := p.2.1

/-- Blue channel of a pixel. -/
def chB (p : Pixel) : ℕ := p.2.2

/-- `quantize._get_color_range`: the sum over the three channels of
`max - min` across the bucket (0 for an empty bucket). -/
def colorRange (b : Bucket) : ℕ :=
  if b = [] then 0
  else
    (listMax (b.map chR) - listMin (b.map chR)) +
    (listMax (b.map chG) - listMin (b.map chG)) +
    (listMax (b.map chB) - listMin (b.map chB))

/-- `quantize._find_largest_bucket`: index of the first bucket of maximal
color range (the loop starts from `max_range = -1` and updates only on a
strict increase, so the first maximum wins). -/
def findLargestBucket (bs : List Bucket) : ℕ :=
  firstArgmax (bs.map colorRange)

/-- The sort key for `quantize._median_cut_split`: the value of channel
`ch` (0 = R, 1 = G, 2 = B, the `argmax` result over the channel ranges). -/
def splitKey (ch : ℕ) (p : Pixel) : ℕ :=
  if ch = 0 then p.1 else if ch = 1 then p.2.1 else p.2.2

/-- `quantize._median_cut_split`: buckets of at most one pixel return
`(bucket, [])`; otherwise sort by the widest channel (first maximal
channel, `R < G < B`) and split at `n / 2`.

The source sorts with `np.argsort` (default `quicksort`/introsort), whose
ordering of equal keys is implementation-defined; it is modelled here as
a stable sort. -/
def medianCutSplit (b : Bucket) : Bucket × Bucket :=
  if b.length ≤ 1 then (b, [])
  else
    let ranges := [listMax (b.map chR) - listMin (b.map chR),
                   listMax (b.map chG) - listMin (b.map chG),
                   listMax (b.map chB) - listMin (b.map chB)]
    let ch := firstArgmax ranges
    let sorted := List.insertionSort (fun p q => splitKey ch p ≤ splitKey ch q) b
    let mid := b.length / 2
    (sorted.take mid, sorted.drop mid)

/-- The splitting loop of `quantize.median_cut_quantize`: while fewer than
`numColors` buckets exist, pop the bucket with the largest range, split
it, and push the halves at the end; if a half comes back empty, push the
bucket back and stop. Each productive iteration grows the bucket count by
one, so `numColors` steps of fuel always suffice. -/
def medianCutLoop (numColors : ℕ) : ℕ → List Bucket → List Bucket
  | 0, bs => bs
  | fuel + 1, bs =>
    if bs.length < numColors then
      let i := findLargestBucket bs
      let largest := bs.getD i []
      let rest := bs.eraseIdx i
      let (b1, b2) := medianCutSplit largest
      if b1 = [] ∨ b2 = [] then rest ++ [largest]
      else medianCutLoop numColors fuel (rest ++ [b1, b2])
    else bs

/-- `bucket.mean(axis=0)` cast to `uint8`: the componentwise mean,
truncated toward zero.  The float64 mean of at most `2^16` byte values is
close enough to the exact rational that truncation agrees with exact
floor division. -/
def bucketMean (b : Bucket) : Pixel :=
  ((b.map chR).sum / b.length, (b.map chG).sum / b.length, (b.map chB).sum / b.length)

/-- `quantize._find_color_index` (also
`color.find_closest_palette_color` and the `uint8` uses of
`dither.Ditherer._find_closest_color`): index of the palette entry
minimizing the (uint8-wrapped) squared distance, first minimum on ties. -/
def findColorIndex8 (p : Pixel) (palette : Palette) : ℕ :=
  firstArgmin (palette.map (fun q => wdistPix q p))

/-- `quantize.median_cut_quantize`: if the input has at most `numColors`
distinct colors, the palette is the distinct colors (ascending lex order)
zero-padded to `numColors`; otherwise run the splitting loop starting with
one bucket of all pixels and emit one (truncated) mean per bucket.  The
second component maps every input pixel to its closest palette entry. -/
def medianCutQuantize (pixels : List Pixel) (numColors : ℕ) : Palette × List ℕ :=
  let uniq := npUnique pixels
  if uniq.length ≤ numColors then
    let palette := uniq ++ List.replicate (numColors - uniq.length) (0, 0, 0)
    (palette, pixels.map (fun p => findColorIndex8 p palette))
  else
    let buckets := medianCutLoop numColors numColors [pixels]
    let palette := buckets.map bucketMean
    (palette, pixels.map (fun p => findColorIndex8 p palette))

/-! ## Palette assignment (`quantize.py` / `pipeline.py`) -/

/-- `quantize._calculate_palette_error`: total squared quantization error
of a scanline against a palette; per-pixel distances are the
uint8-wrapped `np.sum((palette - pixel) ** 2)` minima (0 for an empty
palette, which no call site produces). -/
def paletteError (scanline : List Pixel) (palette : Palette) : ℕ :=
  (scanline.map (fun p =>
    match palette.map (fun q => wdistPix q p) with
    | [] => 0
    | d :: ds => ds.foldr min d)).sum

/-- `quantize._find_best_existing_palette`: index of the recorded palette
with the smallest `paletteError` against the scanline (strict-improvement
loop, so the first minimum wins). -/
def findBestExistingPalette (scanline : List Pixel) (palettes : List Palette) : ℕ :=
  firstArgmin (palettes.map (paletteError scanline))

/-- Exact squared distance between two 24-bit channels (used where the
source first casts to float, so no uint8 wrap occurs). -/
def sqDiff (a b : ℕ) : ℕ := (max a b - min a b) * (max a b - min a b)

/-- `pipeline.find_closest_palette_index`: summed squared entrywise
distance between two palettes, computed after `astype(float)` — exact. -/
def paletteDist (p q : Palette) : ℕ :=
  ((p.zip q).map (fun e =>
    sqDiff e.1.1 e.2.1 + sqDiff e.1.2.1 e.2.2.1 + sqDiff e.1.2.2 e.2.2.2)).sum

/-- `pipeline.find_closest_palette_index`: index of the recorded palette
closest to `target` (first minimum on ties). -/
def findClosestPaletteIndex (target : Palette) (palettes : List Palette) : ℕ :=
  firstArgmin (palettes.map (fun p => paletteDist p target))

/-- State of the palette-collection loops: the recorded palettes and the
SCB entries assigned so far (`palette_map` in the source only mirrors
membership in `palettes`, so it needs no separate field). -/
structure QState where
  palettes : List Palette
  scb : List ℕ
deriving DecidableEq, Repr

/-- The regenerate branch shared by `quantize.optimized_quantize`'s loop
body: run median cut on the scanline; reuse the index of an identical
recorded palette, else append if fewer than 16 palettes are recorded,
else fall back to `_find_best_existing_palette`. -/
def optCreateNew (numColors : ℕ) (st : QState) (scanline : List Pixel) : QState :=
  let p := (medianCutQuantize scanline numColors).1
  if p ∈ st.palettes then
    { st with scb := st.scb ++ [st.palettes.indexOf p] }
  else if st.palettes.length < 16 then
    { palettes := st.palettes ++ [p], scb := st.scb ++ [st.palettes.length] }
  else
    { st with scb := st.scb ++ [findBestExistingPalette scanline st.palettes] }

/-- One row of `quantize.optimized_quantize`: for `y > 0` (some previous
SCB entry exists), reuse the previous row's palette when the wrapped
quantization error is at most `error_threshold` (a Python float, possibly
`inf`, modelled as `WithTop ℚ`); otherwise regenerate. -/
def optStep (numColors : ℕ) (threshold : WithTop ℚ) (st : QState)
    (scanline : List Pixel) : QState :=
  match st.scb.getLast? with
  | some prev =>
    if ((paletteError scanline (st.palettes.getD prev []) : ℚ) : WithTop ℚ) ≤ threshold then
      { st with scb := st.scb ++ [prev] }
    else optCreateNew numColors st scanline
  | none => optCreateNew numColors st scanline

/-- The main loop of `quantize.optimized_quantize` over the image rows. -/
def optimizedQuantizeCore (image : List (List Pixel)) (numColors : ℕ)
    (threshold : WithTop ℚ) : QState :=
  image.foldl (optStep numColors threshold) ⟨[], []⟩

/-- `quantize.optimized_quantize`: run the loop, then pad the palette
list with all-black palettes up to 16. -/
def optimizedQuantize (image : List (List Pixel)) (numColors : ℕ)
    (threshold : WithTop ℚ) : List Palette × List ℕ :=
  let st := optimizedQuantizeCore image numColors threshold
  (st.palettes ++
    List.replicate (16 - st.palettes.length) (List.replicate numColors (0, 0, 0)),
   st.scb)

/-- One row of `pipeline.generate_per_scanline_palettes`: run median cut
on the row; reuse the index of an identical recorded palette, else append
if fewer than 16 palettes are recorded, else fall back to
`find_closest_palette_index` applied to the freshly generated palette. -/
def psStep (st : QState) (row : List Pixel) : QState :=
  let p := (medianCutQuantize row 16).1
  if p ∈ st.palettes then
    { st with scb := st.scb ++ [st.palettes.indexOf p] }
  else if st.palettes.length < 16 then
    { palettes := st.palettes ++ [p], scb := st.scb ++ [st.palettes.length] }
  else
    { st with scb := st.scb ++ [findClosestPaletteIndex p st.palettes] }

/-- `pipeline.generate_per_scanline_palettes`: process the 200 rows
(`pixels[y]` for `y in range(200)`), then pad to 16 palettes with
all-black 16-entry palettes. -/
def generatePerScanlinePalettes (pixels : List (List Pixel)) : List Palette × List ℕ :=
  let st := (List.range 200).foldl (fun st y => psStep st (pixels.getD y [])) ⟨[], []⟩
  (st.palettes ++
    List.replicate (16 - st.palettes.length) (List.replicate 16 (0, 0, 0)),
   st.scb)

/-! ## The `.3200` packer / unpacker (`format_writer.py`) -/

/-- One scanline of `format_writer.pack_pixel_data`: every pair of pixels
becomes one byte, low nibble the even-column pixel, high nibble the
odd-column pixel (`(pixel1 << 4) | pixel0` with both nibbles `< 16`, i.e.
`pixel1·16 + pixel0`); `& 0x0F` is `% 16`. Rows always have even length
(320) in the source. -/
def packRow : List ℕ → List ℕ
  | a :: b :: rest => (b % 16 * 16 + a % 16) :: packRow rest
  | [a] => [a % 16]
  | [] => []

/-- `format_writer.pack_pixel_data`: 200 rows × 160 bytes, row-major. -/
def packPixelData (pixelIndices : List (List ℕ)) : List ℕ :=
  pixelIndices.flatMap packRow

/-- The 12-bit word stored by `format_writer.pack_palette_data` for slot
`colorIdx` of a palette: the converted entry when present
(`color_idx < len(palette)`), black (0) otherwise. -/
def packColorWord (palette : Palette) (colorIdx : ℕ) : ℕ :=
  match palette.get? colorIdx with
  | some rgb => rgb24_to_iigs12 rgb
  | none => 0

/-- The two little-endian bytes `format_writer.pack_palette_data` writes
for one color slot (`color_12bit & 0xFF`, then `(color_12bit >> 8) & 0xFF`). -/
def packColorBytes (palette : Palette) (colorIdx : ℕ) : List ℕ :=
  [packColorWord palette colorIdx % 256, packColorWord palette colorIdx / 256 % 256]

/-- The 32 bytes `format_writer.pack_palette_data` writes for one of the
16 palette slots: the 16 color words of the recorded palette when one
exists (`palette_idx < len(palettes)`), an all-zero block otherwise. -/
def packPaletteChunk (palettes : List Palette) (paletteIdx : ℕ) : List ℕ :=
  match palettes.get? paletteIdx with
  | some palette => (List.range 16).flatMap (packColorBytes palette)
  | none => List.replicate 32 0

/-- `format_writer.pack_palette_data`: 16 palette slots × 16 colors ×
2 bytes. -/
def packPaletteData (palettes : List Palette) : List ℕ :=
  (List.range 16).flatMap (packPaletteChunk palettes)

/-- The 32,768-byte buffer written by `format_writer.write_3200_file`:
pixel data at `[0, 32000)`, SCB bytes at `[32000, 32200)`, zero padding
at `[32200, 32256)`, palette data at `[32256, 32768)`. -/
def write3200Data (pixelIndices : List (List ℕ)) (scbBytes : List ℕ)
    (palettes : List Palette) : List ℕ :=
  packPixelData pixelIndices ++ scbBytes ++ List.replicate 56 0 ++
    packPaletteData palettes

/-- `format_writer.write_3200_file` up to file I/O: validate the shapes
(`pixel_indices` must be 200×320, `scb_bytes` length 200, at most 16
palettes — `ValueError`, i.e. `none`, otherwise) and emit the buffer. -/
def write3200File (pixelIndices : List (List ℕ)) (scbBytes : List ℕ)
    (palettes : List Palette) : Option (List ℕ) :=
  if pixelIndices.length = 200 ∧ (∀ r ∈ pixelIndices, r.length = 320) then
    if scbBytes.length = 200 then
      if palettes.length ≤ 16 then
        some (write3200Data pixelIndices scbBytes palettes)
      else none
    else none
  else none

/-- One scanline of `format_writer.unpack_pixel_data`: each byte yields
the even pixel `byte & 0x0F` then the odd pixel `(byte >> 4) & 0x0F`. -/
def unpackRow : List ℕ → List ℕ
  | [] => []
  | byte :: rest => byte % 16 :: byte / 16 % 16 :: unpackRow rest

/-- `format_writer.unpack_pixel_data`: 200 rows of 160 bytes each. -/
def unpackPixelData (data : List ℕ) : List (List ℕ) :=
  (List.range 200).map (fun y => unpackRow ((data.drop (160 * y)).take 160))

/-- `format_writer.unpack_palette_data`: 16 palettes of 16 colors, each
read as a little-endian 16-bit word and converted with
`iigs12_to_rgb24`. -/
def unpackPaletteData (data : List ℕ) : List Palette :=
  (List.range 16).map (fun paletteIdx =>
    (List.range 16).map (fun colorIdx =>
      let off := 32 * paletteIdx + 2 * colorIdx
      iigs12_to_rgb24 (data.getD off 0 + 256 * data.getD (off + 1) 0)))

/-- `format_writer.read_3200_file` after the file is read: reject
(`ValueError`, i.e. `none`) any input that is not exactly 32,768 bytes,
then unpack pixels, SCBs and palettes. -/
def read3200File (data : List ℕ) :
    Option (List (List ℕ) × List ℕ × List Palette) :=
  if data.length = 32768 then
    some (unpackPixelData (data.take 32000),
          (data.drop 32000).take 200,
          unpackPaletteData ((data.drop 32256).take 512))
  else none

/-! ## Dithering (`dither.py`) -/

/-- A working-buffer color: the float triples of the error-diffusion
buffers, modelled over `ℚ`. -/
abbrev Vec3 : Type := ℚ × ℚ × ℚ

/-- Cast a byte pixel into the working buffer. -/
def pixToVec (p : Pixel) : Vec3 := ((p.1 : ℚ), (p.2.1 : ℚ), (p.2.2 : ℚ))

/-- Componentwise sum. -/
def vadd (a b : Vec3) : Vec3 := (a.1 + b.1, a.2.1 + b.2.1, a.2.2 + b.2.2)

/-- Componentwise difference. -/
def vsub (a b : Vec3) : Vec3 := (a.1 - b.1, a.2.1 - b.2.1, a.2.2 - b.2.2)

/-- Scalar multiple. -/
def vscale (c : ℚ) (a : Vec3) : Vec3 := (c * a.1, c * a.2.1, c * a.2.2)

/-- Squared Euclidean distance in the working buffer. -/
def qdist (a b : Vec3) : ℚ :=
  (a.1 - b.1) * (a.1 - b.1) + (a.2.1 - b.2.1) * (a.2.1 - b.2.1) +
    (a.2.2 - b.2.2) * (a.2.2 - b.2.2)

/-- `dither.Ditherer._find_closest_color` on a float pixel (the palette
is upcast by the subtraction, so the distances are exact): first index of
minimal squared distance (`np.argmin`). -/
def findClosestColorQ (pixel : Vec3) (palette : Palette) : ℕ :=
  firstArgmin (palette.map (fun q => qdist (pixToVec q) pixel))

/-- The 2D working buffer of the error-diffusion ditherers. -/
abbrev Buffer : Type := List (List Vec3)

/-- Read `buf[y][x]` (0 outside the buffer; all accesses in the
algorithms are in bounds). -/
def bufGet (buf : Buffer) (y x : ℕ) : Vec3 := (buf.getD y []).getD x (0, 0, 0)

/-- Write `buf[y][x] = v`. -/
def bufSet (buf : Buffer) (y x : ℕ) (v : Vec3) : Buffer :=
  buf.set y ((buf.getD y []).set x v)

/-- `buf[y][x] += v`. -/
def bufAdd (buf : Buffer) (y x : ℕ) (v : Vec3) : Buffer :=
  bufSet buf y x (vadd (bufGet buf y x) v)

/-- An error-diffusion table: row offset, column offset, weight. -/
abbrev DiffusionWeights : Type := List (ℕ × ℤ × ℚ)

/-- `AtkinsonDitherer`: distributes only 6/8 of the error. -/
def atkinsonWeights : DiffusionWeights :=
  [(0, 1, 1/8), (0, 2, 1/8), (1, -1, 1/8), (1, 0, 1/8), (1, 1, 1/8), (2, 0, 1/8)]

/-- `FloydSteinbergDitherer` weights. -/
def floydSteinbergWeights : DiffusionWeights :=
  [(0, 1, 7/16), (1, -1, 3/16), (1, 0, 5/16), (1, 1, 1/16)]

/-- `JarvisJudiceNinkeDitherer` weights. -/
def jjnWeights : DiffusionWeights :=
  [(0, 1, 7/48), (0, 2, 5/48),
   (1, -2, 3/48), (1, -1, 5/48), (1, 0, 7/48), (1, 1, 5/48), (1, 2, 3/48),
   (2, -2, 1/48), (2, -1, 3/48), (2, 0, 5/48), (2, 1, 3/48), (2, 2, 1/48)]

/-- `StuckiDitherer` weights. -/
def stuckiWeights : DiffusionWeights :=
  [(0, 1, 8/42), (0, 2, 4/42),
   (1, -2, 2/42), (1, -1, 4/42), (1, 0, 8/42), (1, 1, 4/42), (1, 2, 2/42),
   (2, -2, 1/42), (2, -1, 2/42), (2, 0, 4/42), (2, 1, 2/42), (2, 2, 1/42)]

/-- `BurkesDitherer` weights. -/
def burkesWeights : DiffusionWeights :=
  [(0, 1, 8/32), (0, 2, 4/32),
   (1, -2, 2/32), (1, -1, 4/32), (1, 0, 8/32), (1, 1, 4/32), (1, 2, 2/32)]

/-- Distribute `err` to the neighbors listed in `weights`, guarded by the
source's bounds checks (`0 ≤ x + dx < width` and `y + dy < height`; the
row offsets are never negative). -/
def applyWeights (h w y x : ℕ) (err : Vec3) (weights : DiffusionWeights)
    (buf : Buffer) : Buffer :=
  weights.foldl (fun buf e =>
    let ny := y + e.1
    let nx : ℤ := (x : ℤ) + e.2.1
    if 0 ≤ nx ∧ nx < (w : ℤ) ∧ ny < h then
      bufAdd buf ny nx.toNat (vscale e.2.2 err) else buf) buf

/-- The common error-diffusion loop (`dither` of the five error-diffusion
classes): visit pixels row-major; quantize the working value to the
palette, record the index, replace the working value by the palette
color, and diffuse the residual per the weight table. -/
def errorDiffuse (weights : DiffusionWeights) (image : List (List Pixel))
    (palette : Palette) : List (List ℕ) :=
  let h := image.length
  let w := (image.headD []).length
  let start : Buffer := image.map (fun row => row.map pixToVec)
  let zeros : List (List ℕ) := image.map (fun row => row.map (fun _ => 0))
  (List.range h).foldl (fun acc y =>
    (List.range w).foldl (fun acc x =>
      let buf := acc.1
      let old := bufGet buf y x
      let idx := findClosestColorQ old palette
      let newv := pixToVec (palette.getD idx (0, 0, 0))
      let buf := bufSet buf y x newv
      let err := vsub old newv
      (applyWeights h w y x err weights buf,
       acc.2.set y ((acc.2.getD y []).set x idx))) acc) (start, zeros) |>.2

/-- The 4×4 Bayer matrix literal of
`OrderedDitherer._generate_bayer_matrix` (the integer matrix divided by
16; all entries dyadic, so the float matrix is exact). -/
def bayer4 : List (List ℚ) :=
  [[0/16, 8/16, 2/16, 10/16],
   [12/16, 4/16, 14/16, 6/16],
   [3/16, 11/16, 1/16, 9/16],
   [15/16, 7/16, 13/16, 5/16]]

/-- `OrderedDitherer._generate_bayer_matrix`: the 2×2 and 4×4 matrices
are literals; the 8×8 one is assembled from the recursive call
`_generate_bayer_matrix(4)` (which always returns `bayer4`) as the block
matrix `[[4·m4, 4·m4+2], [4·m4+3, 4·m4+1]] / 4`; any other size raises
`ValueError` (`none`). -/
def generateBayerMatrix (n : ℕ) : Option (List (List ℚ)) :=
  if n = 2 then
    some [[0/4, 2/4], [3/4, 1/4]]
  else if n = 4 then
    some bayer4
  else if n = 8 then
    some (let m4 := bayer4
      let top := m4.map (fun row => row.map (fun v => 4 * v) ++
        row.map (fun v => (4 * v + 2)))
      let bot := m4.map (fun row => row.map (fun v => (4 * v + 3)) ++
        row.map (fun v => (4 * v + 1)))
      (top ++ bot).map (fun row => row.map (fun v => v / 4)))
  else none

/-- `OrderedDitherer.__init__`: construction fails exactly when the Bayer
matrix generator raises. -/
def mkOrderedDitherer (matrixSize : ℕ) : Option (ℕ × List (List ℚ)) :=
  (generateBayerMatrix matrixSize).map (fun m => (matrixSize, m))

/-- `OrderedDitherer.dither`: perturb each pixel by
`(B[y % n, x % n] - 0.5) * 32`, clamp to `[0, 255]`, then take the
nearest palette color. -/
def orderedDither (matrixSize : ℕ) (matrix : List (List ℚ))
    (image : List (List Pixel)) (palette : Palette) : List (List ℕ) :=
  let clamp : ℚ → ℚ := fun v => max 0 (min v 255)
  image.mapIdx (fun y row =>
    row.mapIdx (fun x p =>
      let t := (matrix.getD (y % matrixSize) []).getD (x % matrixSize) 0
      let v := pixToVec p
      let v' := (clamp (v.1 + (t - 1/2) * 32), clamp (v.2.1 + (t - 1/2) * 32),
                 clamp (v.2.2 + (t - 1/2) * 32))
      findClosestColorQ v' palette))

/-- `NoDitherer.dither`: nearest palette color per pixel; both arguments
are `uint8`, so the distances wrap (`findColorIndex8`). -/
def noDither (image : List (List Pixel)) (palette : Palette) : List (List ℕ) :=
  image.map (fun row => row.map (fun p => findColorIndex8 p palette))

/-- The dithering algorithms, as a closed datatype (`DITHERING_ALGORITHMS`
maps names to classes; `ordered` carries its matrix size). -/
inductive DitherKind : Type
  | atkinson
  | floydSteinberg
  | jjn
  | stucki
  | burkes
  | ordered (matrixSize : ℕ)
  | noDither
deriving DecidableEq, Repr

/-- `DITHERING_ALGORITHMS`: the name → algorithm dictionary; the classes
are instantiated with no arguments, so `ordered` and `bayer` get the
default 8×8 matrix. -/
def ditherAlgorithms : List (String × DitherKind) :=
  [("atkinson", .atkinson), ("floyd-steinberg", .floydSteinberg),
   ("jjn", .jjn), ("stucki", .stucki), ("burkes", .burkes),
   ("ordered", .ordered 8), ("bayer", .ordered 8), ("none", .noDither)]

/-- `Ditherer.dither` dispatched over the algorithm. -/
def ditherImage (alg : DitherKind) (image : List (List Pixel))
    (palette : Palette) : List (List ℕ) :=
  match alg with
  | .atkinson => errorDiffuse atkinsonWeights image palette
  | .floydSteinberg => errorDiffuse floydSteinbergWeights image palette
  | .jjn => errorDiffuse jjnWeights image palette
  | .stucki => errorDiffuse stuckiWeights image palette
  | .burkes => errorDiffuse burkesWeights image palette
  | .ordered n => orderedDither n ((generateBayerMatrix n).getD []) image palette
  | .noDither => noDither image palette

/-- `pipeline.apply_per_scanline_dithering`: reject unknown method names
(`ValueError`, i.e. `none`); otherwise dither each of the 200 scanlines
independently — the ditherer is called on the one-row slice
`pixels[y:y+1]` with the palette selected by `scb_bytes[y]`, and row `y`
of the output is row 0 of that call's result. -/
def applyPerScanlineDithering (pixels : List (List Pixel))
    (palettes : List Palette) (scbBytes : List ℕ) (ditherMethod : String) :
    Option (List (List ℕ)) :=
  match ditherAlgorithms.lookup ditherMethod with
  | some alg =>
    some ((List.range 200).map (fun y =>
      (ditherImage alg [pixels.getD y []]
        (palettes.getD (scbBytes.getD y 0) [])).headD []))
  | none => none

/-! ## Spec-side definitions and concrete inputs used by the claims -/

/-- The IIgs 12-bit grid for one channel: the multiples of 17 up to 255. -/
def onIIgsGridChan (v : ℕ) : Prop := v ≤ 255 ∧ v % 17 = 0

instance (v : ℕ) : Decidable (onIIgsGridChan v) := by
  unfold onIIgsGridChan; infer_instance

/-- All three channels of a pixel lie on the IIgs 12-bit grid. -/
def onIIgsGrid (p : Pixel) : Prop :=
  onIIgsGridChan p.1 ∧ onIIgsGridChan p.2.1 ∧ onIIgsGridChan p.2.2

instance (p : Pixel) : Decidable (onIIgsGrid p) := by
  unfold onIIgsGrid; infer_instance

/-- Written from the specification's words, for comparison with the
code: the *exact* summed squared nearest-neighbor error of a row of
pixels against a palette (no uint8 wraparound). -/
def specRowError (row : List Pixel) (palette : Palette) : ℕ :=
  (row.map (fun p =>
    match palette.map (fun q =>
        sqDiff q.1 p.1 + sqDiff q.2.1 p.2.1 + sqDiff q.2.2 p.2.2) with
    | [] => 0
    | d :: ds => ds.foldr min d)).sum

/-- Written from the specification's words: the index of the recorded
palette with the smallest summed squared nearest-neighbor error against
the row's actual pixels (first index on ties). -/
def specBestErrorPaletteIdx (row : List Pixel) (palettes : List Palette) : ℕ :=
  firstArgmin (palettes.map (specRowError row))

/-- A 200-row, one-pixel-wide canvas: rows 0–15 hold sixteen distinct
colors `(215-y, 200, 200)`, row 16 holds `(1, 0, 0)`, and the remaining
rows repeat row 0's color.  Its first 17 rows generate 17 distinct
single-color palettes, so row 16 hits the 16-palette ceiling. -/
def imgC2 : List (List Pixel) :=
  (List.range 200).map (fun y =>
    if y < 16 then [(215 - y, 200, 200)]
    else if y = 16 then [(1, 0, 0)]
    else [(215, 200, 200)])

/-- A row with 17 distinct colors: `(0,0,0) … (15,0,0)` and `(0,1,0)`.
Median cut on it produces a 16-entry palette that cannot represent all
17 colors, so the row has nonzero quantization error against its own
generated palette. -/
def rowC3 : List Pixel :=
  (List.range 16).map (fun i => (i, 0, 0)) ++ [(0, 1, 0)]

/-- A concrete mid-run state of the palette-collection loops: sixteen
distinct single-color palettes (each `(215-i, 200, 200)` followed by
fifteen black entries) with SCB entries 0–15 already assigned. -/
def stC2 : QState :=
  ⟨(List.range 16).map (fun i =>
      ((215 - i : ℕ), (200 : ℕ), (200 : ℕ)) ::
        List.replicate 15 ((0 : ℕ), (0 : ℕ), (0 : ℕ))),
   List.range 16⟩

/-! ## Helper lemmas -/

theorem to4bit_le_15 {c : ℕ} (hc : c ≤ 255) : to4bit c ≤ 15 := by
  unfold to4bit; omega

theorem to8bit_eq_17 (n : ℕ) : to8bit n = 17 * n := by
  unfold to8bit; omega

theorem to4bit_17 (n : ℕ) : to4bit (17 * n) = n := by
  unfold to4bit; omega

theorem word_extract {r4 g4 b4 : ℕ} (hr : r4 < 16) (hg : g4 < 16) (hb : b4 < 16) :
    (256 * b4 + 16 * g4 + r4) % 16 = r4 ∧
    (256 * b4 + 16 * g4 + r4) / 16 % 16 = g4 ∧
    (256 * b4 + 16 * g4 + r4) / 256 % 16 = b4 := by
  omega

/-- The 12-bit roundtrip of a byte pixel snaps each channel to
`17 · to4bit channel`. -/
theorem roundtrip_channels (p : Pixel) (h1 : p.1 ≤ 255) (h2 : p.2.1 ≤ 255)
    (h3 : p.2.2 ≤ 255) :
    iigs12_to_rgb24 (rgb24_to_iigs12 p) =
      (17 * to4bit p.1, 17 * to4bit p.2.1, 17 * to4bit p.2.2) := by
  obtain ⟨e1, e2, e3⟩ :=
    @word_extract (to4bit p.1) (to4bit p.2.1) (to4bit p.2.2)
      (by have := to4bit_le_15 h1; omega)
      (by have := to4bit_le_15 h2; omega)
      (by have := to4bit_le_15 h3; omega)
  unfold rgb24_to_iigs12 iigs12_to_rgb24
  rw [e1, e2, e3, to8bit_eq_17, to8bit_eq_17, to8bit_eq_17]

/-! ## C7 -/

/-- C7: for every nibble `n ≤ 15`, `iigs12_to_rgb24`'s channel map yields
exactly `17·n`, and the composite channel map `rgb24 → iigs12 → rgb24` is
idempotent on pixels with byte channels. -/
theorem iigs12_grid_idempotent :
    (∀ n : ℕ, n ≤ 15 → to8bit n = 17 * n) ∧
    (∀ p : Pixel, p.1 ≤ 255 → p.2.1 ≤ 255 → p.2.2 ≤ 255 →
      iigs12_to_rgb24 (rgb24_to_iigs12 (iigs12_to_rgb24 (rgb24_to_iigs12 p))) =
        iigs12_to_rgb24 (rgb24_to_iigs12 p)) := by
  constructor
  · exact fun n _ => to8bit_eq_17 n
  · intro p h1 h2 h3
    rw [roundtrip_channels p h1 h2 h3]
    rw [roundtrip_channels _ (by have := to4bit_le_15 h1; simp; omega)
      (by have := to4bit_le_15 h2; simp; omega)
      (by have := to4bit_le_15 h3; simp; omega)]
    simp only [to4bit_17]

/-- Witness for C7 at nibble 9 and pixel (100, 200, 30). -/
theorem iigs12_grid_idempotent_witness :
    to8bit 9 = 17 * 9 ∧
    iigs12_to_rgb24 (rgb24_to_iigs12 (iigs12_to_rgb24 (rgb24_to_iigs12 (100, 200, 30)))) =
      iigs12_to_rgb24 (rgb24_to_iigs12 (100, 200, 30)) :=
  ⟨iigs12_grid_idempotent.1 9 (by decide),
   iigs12_grid_idempotent.2 (100, 200, 30) (by decide) (by decide) (by decide)⟩

/-! ## C9 -/

/-- C9: the unpacker rejects exactly the inputs that are not 32,768 bytes
long, and constructing an ordered (Bayer) ditherer fails exactly when the
matrix size is not 2, 4 or 8; all other inputs succeed. -/
theorem unpacker_and_bayer_errors :
    (∀ data : List ℕ, (read3200File data).isSome = (data.length == 32768)) ∧
    (∀ n : ℕ, (mkOrderedDitherer n).isSome = (n == 2 || n == 4 || n == 8)) := by
  constructor
  · intro data
    by_cases h : data.length = 32768 <;> simp [read3200File, h]
  · intro n
    by_cases h2 : n = 2
    · subst h2; rfl
    · by_cases h4 : n = 4
      · subst h4; rfl
      · by_cases h8 : n = 8
        · subst h8; rfl
        · simp [mkOrderedDitherer, generateBayerMatrix, h2, h4, h8]

/-! ## C6 -/

/-- The nibble computed by `rgb24_to_iigs12` is the round-half-up floor
`⌊c·15/255 + 1/2⌋`. -/
theorem to4bit_floor (c : ℕ) : to4bit c = ⌊((c : ℚ) * 15 / 255 + 1/2)⌋₊ := by
  have h : ((c : ℚ) * 15 / 255 + 1/2) = ((30 * c + 255 : ℕ) : ℚ) / ((510 : ℕ) : ℚ) := by
    push_cast; ring
  rw [h, Nat.floor_div_eq_div]
  rfl

theorem rgb24_to_iigs12_lt {r g b : ℕ} (hr : r ≤ 255) (hg : g ≤ 255) (hb : b ≤ 255) :
    rgb24_to_iigs12 (r, g, b) < 4096 := by
  have h1 := to4bit_le_15 hr
  have h2 := to4bit_le_15 hg
  have h3 := to4bit_le_15 hb
  unfold rgb24_to_iigs12
  dsimp only
  omega

theorem length_flatMap_uniform {α β : Type} (f : α → List β) (c : ℕ) :
    ∀ l : List α, (∀ a ∈ l, (f a).length = c) → (l.flatMap f).length = c * l.length := by
  intro l
  induction l with
  | nil => simp
  | cons a as ih =>
    intro h
    have ha := h a (by simp)
    have has := ih (fun x hx => h x (by simp [hx]))
    simp only [List.flatMap_cons, List.length_append, ha, has, List.length_cons]
    ring

theorem flatMap_getD_uniform {α : Type} (f : α → List ℕ) (c : ℕ) :
    ∀ (l : List α) (i j : ℕ) (_hu : ∀ a ∈ l, (f a).length = c)
      (hi : i < l.length) (_hj : j < c),
      (l.flatMap f).getD (c * i + j) 0 = (f (l.get ⟨i, hi⟩)).getD j 0 := by
  intro l
  induction l with
  | nil => intro i j _ hi _; exact absurd hi (by simp)
  | cons a as ih =>
    intro i j hu hi hj
    match i with
    | 0 =>
      have ha : (f a).length = c := hu a (by simp)
      simp only [List.flatMap_cons, Nat.mul_zero, Nat.zero_add]
      rw [List.getD_append _ _ _ _ (by omega)]
      rfl
    | i + 1 =>
      have ha : (f a).length = c := hu a (by simp)
      have harith : c * (i + 1) + j = (f a).length + (c * i + j) := by
        rw [ha]; ring
      simp only [List.flatMap_cons, harith]
      rw [List.getD_append_right _ _ _ _ (Nat.le_add_right _ _), Nat.add_sub_cancel_left]
      exact ih i j (fun x hx => hu x (by simp [hx])) (by simpa using hi) hj

theorem getD_map_range {α : Type} (f : ℕ → α) {n i : ℕ} (h : i < n) (d : α) :
    ((List.range n).map f).getD i d = f i := by
  rw [List.getD_eq_getElem?_getD]
  simp [List.getElem?_range, h]

/-- C6: `rgb24_to_iigs12` produces the word
`(b4 << 8) | (g4 << 4) | r4` with each nibble the round-half-up
`⌊channel·15/255 + 1/2⌋`, bits 12–15 zero; and `pack_palette_data`
stores that word little-endian (low byte, then high byte) for every
palette entry. -/
theorem rgb24_word_packing :
    (∀ r g b : ℕ, r ≤ 255 → g ≤ 255 → b ≤ 255 →
      rgb24_to_iigs12 (r, g, b) =
        256 * ⌊((b : ℚ) * 15 / 255 + 1/2)⌋₊ + 16 * ⌊((g : ℚ) * 15 / 255 + 1/2)⌋₊ +
          ⌊((r : ℚ) * 15 / 255 + 1/2)⌋₊ ∧
      rgb24_to_iigs12 (r, g, b) < 4096) ∧
    (∀ (palettes : List Palette) (pIdx cIdx : ℕ),
      pIdx < palettes.length → pIdx < 16 →
      cIdx < (palettes.getD pIdx []).length → cIdx < 16 →
      (packPaletteData palettes).getD (32 * pIdx + 2 * cIdx) 0 =
        rgb24_to_iigs12 ((palettes.getD pIdx []).getD cIdx (0, 0, 0)) % 256 ∧
      (packPaletteData palettes).getD (32 * pIdx + 2 * cIdx + 1) 0 =
        rgb24_to_iigs12 ((palettes.getD pIdx []).getD cIdx (0, 0, 0)) / 256 % 256) := by
  constructor
  · intro r g b hr hg hb
    refine ⟨?_, rgb24_to_iigs12_lt hr hg hb⟩
    rw [← to4bit_floor, ← to4bit_floor, ← to4bit_floor]
    rfl
  · intro palettes pIdx cIdx hlt h16 hc hc16
    have hget : palettes.get? pIdx = some (palettes.getD pIdx []) := by
      rw [List.getD_eq_getElem _ _ hlt]
      exact List.get?_eq_get hlt
    set pal := palettes.getD pIdx [] with hpal
    have hcget : pal.get? cIdx = some (pal.getD cIdx (0, 0, 0)) := by
      rw [List.getD_eq_getElem _ _ hc]
      exact List.get?_eq_get hc
    have hchunklen : ∀ a ∈ List.range 16, (packPaletteChunk palettes a).length = 32 := by
      intro a _
      unfold packPaletteChunk
      match h : palettes.get? a with
      | some palette =>
        rw [length_flatMap_uniform (packColorBytes palette) 2 _ (fun x _ => rfl)]
        simp
      | none => simp
    have hpi : pIdx < (List.range 16).length := by simpa using h16
    have hci : cIdx < (List.range 16).length := by simpa using hc16
    have step1 := flatMap_getD_uniform (packPaletteChunk palettes) 32 (List.range 16)
      pIdx (2 * cIdx) hchunklen hpi (by omega)
    have step2 := flatMap_getD_uniform (packPaletteChunk palettes) 32 (List.range 16)
      pIdx (2 * cIdx + 1) hchunklen hpi (by omega)
    have hrangep : (List.range 16).get ⟨pIdx, hpi⟩ = pIdx := by simp
    rw [hrangep] at step1 step2
    have hchunk : packPaletteChunk palettes pIdx = (List.range 16).flatMap (packColorBytes pal) := by
      unfold packPaletteChunk
      rw [hget]
    have in1 := flatMap_getD_uniform (packColorBytes pal) 2 (List.range 16)
      cIdx 0 (fun x _ => rfl) hci (by omega)
    have in2 := flatMap_getD_uniform (packColorBytes pal) 2 (List.range 16)
      cIdx 1 (fun x _ => rfl) hci (by omega)
    have hrangec : (List.range 16).get ⟨cIdx, hci⟩ = cIdx := by simp
    rw [hrangec] at in1 in2
    have hw : packColorWord pal cIdx = rgb24_to_iigs12 (pal.getD cIdx (0, 0, 0)) := by
      unfold packColorWord
      rw [hcget]
    constructor
    · show (packPaletteData palettes).getD (32 * pIdx + 2 * cIdx) 0 = _
      unfold packPaletteData
      rw [step1, hchunk, show (2 : ℕ) * cIdx = 2 * cIdx + 0 by ring, in1]
      simp [packColorBytes, hw]
    · show (packPaletteData palettes).getD (32 * pIdx + 2 * cIdx + 1) 0 = _
      unfold packPaletteData
      rw [Nat.add_assoc, step2, hchunk, in2]
      simp [packColorBytes, hw]

/-- Witness for C6 at the white pixel and a one-entry palette. -/
theorem rgb24_word_packing_witness :
    (rgb24_to_iigs12 (255, 255, 255) =
      256 * ⌊((255 : ℚ) * 15 / 255 + 1/2)⌋₊ + 16 * ⌊((255 : ℚ) * 15 / 255 + 1/2)⌋₊ +
        ⌊((255 : ℚ) * 15 / 255 + 1/2)⌋₊ ∧
     rgb24_to_iigs12 (255, 255, 255) < 4096) ∧
    ((packPaletteData [[(17, 34, 51)]]).getD (32 * 0 + 2 * 0) 0 =
      rgb24_to_iigs12 (([[((17 : ℕ), (34 : ℕ), (51 : ℕ))]].getD 0 []).getD 0 (0, 0, 0)) % 256 ∧
     (packPaletteData [[(17, 34, 51)]]).getD (32 * 0 + 2 * 0 + 1) 0 =
      rgb24_to_iigs12 (([[((17 : ℕ), (34 : ℕ), (51 : ℕ))]].getD 0 []).getD 0 (0, 0, 0)) / 256 % 256) :=
  ⟨rgb24_word_packing.1 255 255 255 (by decide) (by decide) (by decide),
   rgb24_word_packing.2 [[(17, 34, 51)]] 0 0 (by decide) (by decide) (by decide) (by decide)⟩

/-! ## C10 -/

theorem packRow_length : ∀ row : List ℕ, (packRow row).length = (row.length + 1) / 2
  | [] => rfl
  | [a] => by simp [packRow]
  | a :: b :: rest => by
    have ih := packRow_length rest
    simp only [packRow, List.length_cons, ih]
    omega

theorem packRow_getD : ∀ (row : List ℕ) (k : ℕ), 2 * k + 1 < row.length →
    (packRow row).getD k 0 =
      row.getD (2 * k + 1) 0 % 16 * 16 + row.getD (2 * k) 0 % 16
  | [], _, h => absurd h (by simp)
  | [_], _, h => by simp at h
  | a :: b :: rest, 0, _ => by simp [packRow]
  | a :: b :: rest, k + 1, h => by
    have ih := packRow_getD rest k (by simp only [List.length_cons] at h; omega)
    have e1 : 2 * (k + 1) + 1 = (2 * k + 1) + 1 + 1 := by ring
    have e2 : 2 * (k + 1) = 2 * k + 1 + 1 := by ring
    rw [e1, e2]
    simp only [packRow, List.getD_cons_succ]
    exact ih

/-- C10: for a 200×320 grid and 200-entry SCB vector with arbitrary
byte values, the packer performs no value-range check: it succeeds, the
pixel byte at offset `160·y + k` is
`(pixel[y, 2k+1] mod 16) · 16 + (pixel[y, 2k] mod 16)` (out-of-range
indices silently truncated to their low nibble), and the SCB bytes are
copied verbatim at offset 32,000. -/
theorem packer_no_range_check (grid : List (List ℕ)) (scb : List ℕ)
    (palettes : List Palette) (hg : grid.length = 200)
    (hr : ∀ r ∈ grid, r.length = 320) (hs : scb.length = 200)
    (hp : palettes.length ≤ 16) :
    write3200File grid scb palettes = some (write3200Data grid scb palettes) ∧
    (∀ y k : ℕ, y < 200 → k < 160 →
      (packPixelData grid).getD (160 * y + k) 0 =
        (grid.getD y []).getD (2 * k + 1) 0 % 16 * 16 +
          (grid.getD y []).getD (2 * k) 0 % 16) ∧
    ((write3200Data grid scb palettes).drop 32000).take 200 = scb := by
  have hrowlen : ∀ r ∈ grid, (packRow r).length = 160 := by
    intro r hrm
    rw [packRow_length, hr r hrm]
  refine ⟨?_, ?_, ?_⟩
  · unfold write3200File
    rw [if_pos ⟨hg, hr⟩, if_pos hs, if_pos hp]
  · intro y k hy hk
    have hy' : y < grid.length := by omega
    have step := flatMap_getD_uniform packRow 160 grid y k hrowlen hy' hk
    have hgetD : grid.get ⟨y, hy'⟩ = grid.getD y [] :=
      (List.getD_eq_getElem grid [] hy').symm
    unfold packPixelData
    rw [step, hgetD]
    have hmem : grid.getD y [] ∈ grid := by
      rw [List.getD_eq_getElem grid [] hy']
      exact List.getElem_mem _
    exact packRow_getD _ k (by rw [hr _ hmem]; omega)
  · have hpxlen : (packPixelData grid).length = 32000 := by
      unfold packPixelData
      rw [length_flatMap_uniform packRow 160 grid hrowlen, hg]
    have h1 : (write3200Data grid scb palettes).drop 32000 =
        scb ++ (List.replicate 56 0 ++ packPaletteData palettes) := by
      unfold write3200Data
      rw [List.append_assoc, List.append_assoc, ← hpxlen, List.drop_left]
    rw [h1, ← hs, List.take_left]

/-- Witness for C10: a 200×320 grid whose every entry is 171 (0xAB,
far above 15) and SCB bytes all 77. -/
theorem packer_no_range_check_witness :
    write3200File (List.replicate 200 (List.replicate 320 171))
        (List.replicate 200 77) [] =
      some (write3200Data (List.replicate 200 (List.replicate 320 171))
        (List.replicate 200 77) []) ∧
    (∀ y k : ℕ, y < 200 → k < 160 →
      (packPixelData (List.replicate 200 (List.replicate 320 171))).getD (160 * y + k) 0 =
        ((List.replicate 200 (List.replicate 320 171)).getD y []).getD (2 * k + 1) 0 % 16 * 16 +
          ((List.replicate 200 (List.replicate 320 171)).getD y []).getD (2 * k) 0 % 16) ∧
    ((write3200Data (List.replicate 200 (List.replicate 320 171))
        (List.replicate 200 77) []).drop 32000).take 200 = List.replicate 200 77 :=
  packer_no_range_check _ _ _ (by rw [List.length_replicate])
    (fun r hrm => by rw [List.eq_of_mem_replicate hrm, List.length_replicate])
    (by rw [List.length_replicate]) (by decide)

/-! ## C1 -/

theorem packPaletteChunk_length (palettes : List Palette) (i : ℕ) :
    (packPaletteChunk palettes i).length = 32 := by
  unfold packPaletteChunk
  match h : palettes.get? i with
  | some palette =>
    rw [length_flatMap_uniform (packColorBytes palette) 2 _ (fun x _ => rfl)]
    simp
  | none => simp

theorem packPaletteData_length (palettes : List Palette) :
    (packPaletteData palettes).length = 512 := by
  unfold packPaletteData
  rw [length_flatMap_uniform (packPaletteChunk palettes) 32 _
    (fun a _ => packPaletteChunk_length palettes a)]
  simp

theorem getD_replicate_zero (n i : ℕ) : (List.replicate n (0 : ℕ)).getD i 0 = 0 := by
  rcases Nat.lt_or_ge i n with h | h
  · rw [List.getD_eq_getElem _ _ (by simpa using h)]
    exact List.getElem_replicate 0 _
  · exact List.getD_eq_default _ _ (by simpa using h)

theorem unpackRow_packRow : ∀ row : List ℕ,
    (∀ v ∈ row, v ≤ 15) → row.length % 2 = 0 → unpackRow (packRow row) = row
  | [], _, _ => rfl
  | [_], _, hw => by simp at hw
  | a :: b :: rest, hv, hw => by
    have ha : a ≤ 15 := hv a (by simp)
    have hb : b ≤ 15 := hv b (by simp)
    have ih := unpackRow_packRow rest (fun v hvm => hv v (by simp [hvm]))
      (by simp only [List.length_cons] at hw; omega)
    have h1 : (b % 16 * 16 + a % 16) % 16 = a := by omega
    have h2 : (b % 16 * 16 + a % 16) / 16 % 16 = b := by omega
    simp only [packRow, unpackRow, h1, h2, ih]

theorem flatMap_slice_uniform {α : Type} (f : α → List ℕ) (c : ℕ) :
    ∀ (l : List α) (i : ℕ) (_hu : ∀ a ∈ l, (f a).length = c) (hi : i < l.length),
      ((l.flatMap f).drop (c * i)).take c = f (l.get ⟨i, hi⟩) := by
  intro l
  induction l with
  | nil => intro i _ hi; exact absurd hi (by simp)
  | cons a as ih =>
    intro i hu hi
    match i with
    | 0 =>
      have ha : (f a).length = c := hu a (by simp)
      simp only [List.flatMap_cons, Nat.mul_zero, List.drop_zero]
      rw [← ha, List.take_left]
      rfl
    | i + 1 =>
      have ha : (f a).length = c := hu a (by simp)
      have harith : c * (i + 1) = (f a).length + c * i := by rw [ha]; ring
      simp only [List.flatMap_cons, harith]
      rw [List.drop_append]
      exact ih i (fun x hx => hu x (by simp [hx])) (by simpa using hi)

/-- Packing a pixel on the IIgs 12-bit grid and unpacking it returns the
pixel unchanged. -/
theorem grid_pixel_roundtrip (p : Pixel) (hp : onIIgsGrid p) :
    iigs12_to_rgb24 (rgb24_to_iigs12 p) = p := by
  obtain ⟨⟨hr1, hr2⟩, ⟨hg1, hg2⟩, ⟨hb1, hb2⟩⟩ := hp
  rw [roundtrip_channels p hr1 hg1 hb1]
  have e1 : 17 * to4bit p.1 = p.1 := by
    obtain ⟨k, hk⟩ : ∃ k, p.1 = 17 * k := ⟨p.1 / 17, by omega⟩
    rw [hk, to4bit_17]
  have e2 : 17 * to4bit p.2.1 = p.2.1 := by
    obtain ⟨k, hk⟩ : ∃ k, p.2.1 = 17 * k := ⟨p.2.1 / 17, by omega⟩
    rw [hk, to4bit_17]
  have e3 : 17 * to4bit p.2.2 = p.2.2 := by
    obtain ⟨k, hk⟩ : ∃ k, p.2.2 = 17 * k := ⟨p.2.2 / 17, by omega⟩
    rw [hk, to4bit_17]
  rw [e1, e2, e3]

theorem unpackPixelData_packPixelData (grid : List (List ℕ)) (hg : grid.length = 200)
    (hgr : ∀ r ∈ grid, r.length = 320) (hgv : ∀ r ∈ grid, ∀ v ∈ r, v ≤ 15) :
    unpackPixelData (packPixelData grid) = grid := by
  have hrowlen : ∀ r ∈ grid, (packRow r).length = 160 := by
    intro r hrm
    rw [packRow_length, hgr r hrm]
  apply List.ext_getElem
  · simp [unpackPixelData, hg]
  · intro y h1 h2
    have hy : y < grid.length := h2
    have h200 : y < 200 := by omega
    have hmap : (unpackPixelData (packPixelData grid))[y] =
        unpackRow (((packPixelData grid).drop (160 * y)).take 160) := by
      simp [unpackPixelData]
    rw [hmap]
    unfold packPixelData
    rw [flatMap_slice_uniform packRow 160 grid y hrowlen hy]
    have hmem : grid.get ⟨y, hy⟩ ∈ grid := List.get_mem grid _ hy
    rw [unpackRow_packRow _ (hgv _ hmem) (by rw [hgr _ hmem])]
    rfl

theorem unpackPaletteData_packPaletteData (palettes : List Palette)
    (hp : palettes.length ≤ 16) (hpl : ∀ p ∈ palettes, p.length = 16)
    (hpg : ∀ p ∈ palettes, ∀ c ∈ p, onIIgsGrid c) :
    unpackPaletteData (packPaletteData palettes) =
      palettes ++ List.replicate (16 - palettes.length)
        (List.replicate 16 ((0 : ℕ), (0 : ℕ), (0 : ℕ))) := by
  have hbyte : ∀ pIdx j : ℕ, pIdx < 16 → j < 32 →
      (packPaletteData palettes).getD (32 * pIdx + j) 0 =
        (packPaletteChunk palettes pIdx).getD j 0 := by
    intro pIdx j hpi hj
    have hpi' : pIdx < (List.range 16).length := by simpa using hpi
    have step := flatMap_getD_uniform (packPaletteChunk palettes) 32 (List.range 16)
      pIdx j (fun a _ => packPaletteChunk_length palettes a) hpi' hj
    have hr : (List.range 16).get ⟨pIdx, hpi'⟩ = pIdx := by simp
    rw [hr] at step
    exact step
  apply List.ext_getElem
  · simp only [unpackPaletteData, List.length_map, List.length_range,
      List.length_append, List.length_replicate]
    omega
  · intro pIdx h1 h2
    have hpi : pIdx < 16 := by
      simpa only [unpackPaletteData, List.length_map, List.length_range] using h1
    have hL : (unpackPaletteData (packPaletteData palettes))[pIdx] =
        (List.range 16).map (fun cIdx =>
          iigs12_to_rgb24 ((packPaletteData palettes).getD (32 * pIdx + 2 * cIdx) 0 +
            256 * (packPaletteData palettes).getD (32 * pIdx + 2 * cIdx + 1) 0)) := by
      simp [unpackPaletteData]
    rw [hL]
    rcases Nat.lt_or_ge pIdx palettes.length with hlt | hge
    · -- a recorded palette comes back unchanged
      set pal := palettes.getD pIdx [] with hpaldef
      have hget : palettes.get? pIdx = some pal := by
        rw [hpaldef, List.getD_eq_getElem _ _ hlt]
        exact List.get?_eq_get hlt
      have hmem : pal ∈ palettes := by
        rw [hpaldef, List.getD_eq_getElem _ _ hlt]
        exact List.getElem_mem _
      have hplen : pal.length = 16 := hpl pal hmem
      have hchunk : packPaletteChunk palettes pIdx =
          (List.range 16).flatMap (packColorBytes pal) := by
        unfold packPaletteChunk
        rw [hget]
      have hword : ∀ cIdx : ℕ, cIdx < 16 →
          (packPaletteData palettes).getD (32 * pIdx + 2 * cIdx) 0 +
            256 * (packPaletteData palettes).getD (32 * pIdx + 2 * cIdx + 1) 0 =
          rgb24_to_iigs12 (pal.getD cIdx (0, 0, 0)) := by
        intro cIdx hci
        have hcpal : cIdx < pal.length := by omega
        have hci' : cIdx < (List.range 16).length := by simpa using hci
        have b1 := flatMap_getD_uniform (packColorBytes pal) 2 (List.range 16)
          cIdx 0 (fun x _ => rfl) hci' (by omega)
        have b2 := flatMap_getD_uniform (packColorBytes pal) 2 (List.range 16)
          cIdx 1 (fun x _ => rfl) hci' (by omega)
        have hrc : (List.range 16).get ⟨cIdx, hci'⟩ = cIdx := by simp
        rw [hrc] at b1 b2
        have hcw : pal.get? cIdx = some (pal.getD cIdx (0, 0, 0)) := by
          rw [List.getD_eq_getElem _ _ hcpal]
          exact List.get?_eq_get hcpal
        have hwdef : packColorWord pal cIdx = rgb24_to_iigs12 (pal.getD cIdx (0, 0, 0)) := by
          unfold packColorWord
          rw [hcw]
        have hentrymem : pal.getD cIdx (0, 0, 0) ∈ pal := by
          rw [List.getD_eq_getElem _ _ hcpal]
          exact List.getElem_mem _
        have hentry := hpg pal hmem _ hentrymem
        have hwlt : rgb24_to_iigs12 (pal.getD cIdx (0, 0, 0)) < 4096 :=
          rgb24_to_iigs12_lt hentry.1.1 hentry.2.1.1 hentry.2.2.1
        rw [hbyte pIdx (2 * cIdx) hpi (by omega), Nat.add_assoc,
          hbyte pIdx (2 * cIdx + 1) hpi (by omega), hchunk]
        rw [show (2 : ℕ) * cIdx = 2 * cIdx + 0 by ring] at b1 ⊢
        rw [b1, b2]
        simp only [packColorBytes, hwdef, List.getD_cons_zero, List.getD_cons_succ]
        omega
      have hinner : (List.range 16).map (fun cIdx =>
          iigs12_to_rgb24 ((packPaletteData palettes).getD (32 * pIdx + 2 * cIdx) 0 +
            256 * (packPaletteData palettes).getD (32 * pIdx + 2 * cIdx + 1) 0)) = pal := by
        apply List.ext_getElem
        · simp [hplen]
        · intro ci hh1 hh2
          have hci : ci < 16 := by simpa using hh1
          have hgetmap : ((List.range 16).map (fun cIdx =>
              iigs12_to_rgb24 ((packPaletteData palettes).getD (32 * pIdx + 2 * cIdx) 0 +
                256 * (packPaletteData palettes).getD (32 * pIdx + 2 * cIdx + 1) 0)))[ci] =
              iigs12_to_rgb24 ((packPaletteData palettes).getD (32 * pIdx + 2 * ci) 0 +
                256 * (packPaletteData palettes).getD (32 * pIdx + 2 * ci + 1) 0) := by
            simp
          rw [hgetmap, hword ci hci]
          have hentrymem : pal.getD ci (0, 0, 0) ∈ pal := by
            rw [List.getD_eq_getElem _ _ hh2]
            exact List.getElem_mem _
          rw [grid_pixel_roundtrip _ (hpg pal hmem _ hentrymem)]
          exact (List.getD_eq_getElem _ _ hh2)
      rw [hinner]
      rw [List.getElem_append_left hlt, hpaldef, List.getD_eq_getElem _ _ hlt]
    · -- an absent slot comes back as an all-black palette
      have hget : palettes.get? pIdx = none := List.get?_eq_none.mpr (by omega)
      have hchunk : packPaletteChunk palettes pIdx = List.replicate 32 0 := by
        unfold packPaletteChunk
        rw [hget]
      have hzero : ∀ j : ℕ, j < 32 →
          (packPaletteData palettes).getD (32 * pIdx + j) 0 = 0 := by
        intro j hj
        rw [hbyte pIdx j hpi hj, hchunk, getD_replicate_zero]
      have hinner : (List.range 16).map (fun cIdx =>
          iigs12_to_rgb24 ((packPaletteData palettes).getD (32 * pIdx + 2 * cIdx) 0 +
            256 * (packPaletteData palettes).getD (32 * pIdx + 2 * cIdx + 1) 0)) =
          List.replicate 16 ((0 : ℕ), (0 : ℕ), (0 : ℕ)) := by
        apply List.ext_getElem
        · simp
        · intro ci hh1 hh2
          have hci : ci < 16 := by simpa using hh1
          have hgetmap : ((List.range 16).map (fun cIdx =>
              iigs12_to_rgb24 ((packPaletteData palettes).getD (32 * pIdx + 2 * cIdx) 0 +
                256 * (packPaletteData palettes).getD (32 * pIdx + 2 * cIdx + 1) 0)))[ci] =
              iigs12_to_rgb24 ((packPaletteData palettes).getD (32 * pIdx + 2 * ci) 0 +
                256 * (packPaletteData palettes).getD (32 * pIdx + 2 * ci + 1) 0) := by
            simp
          rw [hgetmap, hzero (2 * ci) (by omega), Nat.add_assoc,
            hzero (2 * ci + 1) (by omega)]
          rw [List.getElem_replicate]
          rfl
      rw [hinner]
      rw [List.getElem_append_right (by omega), List.getElem_replicate]

/-- C1: for a valid 200×320 IndexGrid with nibble entries, a 200-byte
ScbVector with entries in [0,15], and at most 16 full 16-entry palettes
on the IIgs 12-bit grid, unpacking the packed 32,768-byte blob returns
the same grid, the same SCB vector, and the palettes padded with
all-black palettes to length 16. -/
theorem pack_unpack_roundtrip (grid : List (List ℕ)) (scb : List ℕ)
    (palettes : List Palette) (hg : grid.length = 200)
    (hgr : ∀ r ∈ grid, r.length = 320) (hgv : ∀ r ∈ grid, ∀ v ∈ r, v ≤ 15)
    (hs : scb.length = 200) (_hsv : ∀ v ∈ scb, v ≤ 15)
    (hp : palettes.length ≤ 16) (hpl : ∀ p ∈ palettes, p.length = 16)
    (hpg : ∀ p ∈ palettes, ∀ c ∈ p, onIIgsGrid c) :
    read3200File (write3200Data grid scb palettes) =
      some (grid, scb,
        palettes ++ List.replicate (16 - palettes.length)
          (List.replicate 16 ((0 : ℕ), (0 : ℕ), (0 : ℕ)))) := by
  have hrowlen : ∀ r ∈ grid, (packRow r).length = 160 := by
    intro r hrm
    rw [packRow_length, hgr r hrm]
  have hpx : (packPixelData grid).length = 32000 := by
    unfold packPixelData
    rw [length_flatMap_uniform packRow 160 grid hrowlen, hg]
  have hpal : (packPaletteData palettes).length = 512 := packPaletteData_length palettes
  have hdata : write3200Data grid scb palettes =
      packPixelData grid ++ (scb ++ (List.replicate 56 0 ++ packPaletteData palettes)) := by
    unfold write3200Data
    rw [List.append_assoc, List.append_assoc]
  have hlen : (write3200Data grid scb palettes).length = 32768 := by
    rw [hdata]
    simp only [List.length_append, List.length_replicate, hpx, hs, hpal]
  unfold read3200File
  rw [if_pos hlen]
  have htake : (write3200Data grid scb palettes).take 32000 = packPixelData grid := by
    rw [hdata, ← hpx, List.take_left]
  have hdrop : (write3200Data grid scb palettes).drop 32000 =
      scb ++ (List.replicate 56 0 ++ packPaletteData palettes) := by
    rw [hdata, ← hpx, List.drop_left]
  have hscb : ((write3200Data grid scb palettes).drop 32000).take 200 = scb := by
    rw [hdrop, ← hs, List.take_left]
  have hpals : ((write3200Data grid scb palettes).drop 32256).take 512 =
      packPaletteData palettes := by
    have h56 : (List.replicate 56 (0 : ℕ)).length = 56 := by simp
    have h1 : (write3200Data grid scb palettes).drop 32256 =
        ((write3200Data grid scb palettes).drop 32000).drop 256 := by
      rw [show (32256 : ℕ) = 32000 + 256 by norm_num, ← List.drop_drop]
    rw [h1, hdrop, show (256 : ℕ) = scb.length + 56 by omega, List.drop_append,
      List.drop_left' h56, ← hpal, List.take_length]
  rw [htake, hscb, hpals, unpackPixelData_packPixelData grid hg hgr hgv,
    unpackPaletteData_packPaletteData palettes hp hpl hpg]

/-- Witness for C1: a uniform grid of nibble 5, SCB bytes all 3, and one
palette of sixteen `(17, 0, 255)` entries. -/
theorem pack_unpack_roundtrip_witness :
    read3200File (write3200Data (List.replicate 200 (List.replicate 320 5))
        (List.replicate 200 3) [List.replicate 16 ((17 : ℕ), (0 : ℕ), (255 : ℕ))]) =
      some (List.replicate 200 (List.replicate 320 5), List.replicate 200 3,
        [List.replicate 16 ((17 : ℕ), (0 : ℕ), (255 : ℕ))] ++
          List.replicate (16 - 1) (List.replicate 16 ((0 : ℕ), (0 : ℕ), (0 : ℕ)))) := by
  have h := pack_unpack_roundtrip (List.replicate 200 (List.replicate 320 5))
    (List.replicate 200 3) [List.replicate 16 ((17 : ℕ), (0 : ℕ), (255 : ℕ))]
    (by rw [List.length_replicate])
    (fun r hrm => by rw [List.eq_of_mem_replicate hrm, List.length_replicate])
    (fun r hrm => by
      rw [List.eq_of_mem_replicate hrm]
      intro v hv
      rw [List.eq_of_mem_replicate hv]
      decide)
    (by rw [List.length_replicate])
    (fun v hv => by rw [List.eq_of_mem_replicate hv]; decide)
    (by decide)
    (fun p hpm => by
      rw [List.mem_singleton.mp hpm, List.length_replicate])
    (fun p hpm => by
      rw [List.mem_singleton.mp hpm]
      intro c hc
      rw [List.eq_of_mem_replicate hc]
      decide)
  exact h

/-! ## C8 -/

/-- C8: for every dither method, the indices emitted for row `y` depend
only on row `y`'s pixels and the palette its SCB entry selects: two
canvases that agree on row `y`, dithered with palette sets whose selected
palette for row `y` is identical, produce identical output for row `y`
whatever the other rows hold. -/
theorem dither_row_locality (ditherMethod : String) (p1 p2 : List (List Pixel))
    (pal1 pal2 : List Palette) (scb1 scb2 : List ℕ) (y : ℕ)
    (hrow : p1.getD y [] = p2.getD y [])
    (hpal : pal1.getD (scb1.getD y 0) [] = pal2.getD (scb2.getD y 0) []) :
    (applyPerScanlineDithering p1 pal1 scb1 ditherMethod).map (fun out => out.getD y []) =
      (applyPerScanlineDithering p2 pal2 scb2 ditherMethod).map
        (fun out => out.getD y []) := by
  rcases halg : ditherAlgorithms.lookup ditherMethod with _ | alg
  · simp only [applyPerScanlineDithering, halg]
  · simp only [applyPerScanlineDithering, halg, Option.map_some']
    congr 1
    rcases Nat.lt_or_ge y 200 with hy | hy
    · rw [getD_map_range _ hy, getD_map_range _ hy, hrow, hpal]
    · rw [List.getD_eq_default _ _ (by simpa using hy),
        List.getD_eq_default _ _ (by simpa using hy)]

/-- Witness for C8: identical one-row inputs under the `none` method. -/
theorem dither_row_locality_witness :
    (applyPerScanlineDithering [[(1, 2, 3)]] [[(0, 0, 0)]] [0] "none").map
        (fun out => out.getD 0 []) =
      (applyPerScanlineDithering [[(1, 2, 3)]] [[(0, 0, 0)]] [0] "none").map
        (fun out => out.getD 0 []) :=
  dither_row_locality "none" [[(1, 2, 3)]] [[(1, 2, 3)]] [[(0, 0, 0)]] [[(0, 0, 0)]]
    [0] [0] 0 rfl rfl

/-! ## C2 -/

/-- C2 counterexample: on the canvas `imgC2`, row 16 reaches the
16-palette ceiling with a fresh non-duplicate palette, and the
per-scanline strategy records SCB entry 15 — the index of the recorded
palette *closest to the freshly generated palette* — whereas the palette
with the smallest summed squared nearest-neighbor error against row 16's
actual pixels is palette 0.  This refutes the claim for the per-scanline
strategy. -/
theorem perScanline_fallback_counterexample :
    16 ≤ (generatePerScanlinePalettes imgC2).1.length ∧
    (medianCutQuantize (imgC2.getD 16 []) 16).1 ∉ (generatePerScanlinePalettes imgC2).1 ∧
    (generatePerScanlinePalettes imgC2).2.getD 16 0 = 15 ∧
    specBestErrorPaletteIdx (imgC2.getD 16 []) (generatePerScanlinePalettes imgC2).1 = 0 ∧
    (15 : ℕ) ≠ 0 := by
  set_option maxRecDepth 100000 in decide

/-- C2 (amended): when the 16-palette ceiling has been reached and the
freshly generated palette is not an exact duplicate of a recorded one,
the *optimized* strategy sets row `y`'s SCB entry to the index of the
recorded palette minimizing the summed squared nearest-neighbor error
(computed in uint8 wraparound arithmetic) against row `y`'s actual
pixels, while the *per-scanline* strategy instead sets it to the index of
the recorded palette with the smallest summed squared entrywise distance
to the freshly generated palette itself. -/
theorem ceiling_fallback_behavior :
    (∀ (st : QState) (row : List Pixel) (numColors : ℕ),
      16 ≤ st.palettes.length →
      (medianCutQuantize row numColors).1 ∉ st.palettes →
      optCreateNew numColors st row =
        { st with scb := st.scb ++ [findBestExistingPalette row st.palettes] }) ∧
    (∀ (st : QState) (row : List Pixel),
      16 ≤ st.palettes.length →
      (medianCutQuantize row 16).1 ∉ st.palettes →
      psStep st row =
        { st with scb := st.scb ++
            [findClosestPaletteIndex (medianCutQuantize row 16).1 st.palettes] }) := by
  constructor
  · intro st row numColors hlen hmem
    unfold optCreateNew
    rw [if_neg hmem, if_neg (by omega)]
  · intro st row hlen hmem
    unfold psStep
    rw [if_neg hmem, if_neg (by omega)]

/-- Witness for C2's amended theorem at the concrete state `stC2`. -/
theorem ceiling_fallback_behavior_witness :
    optCreateNew 16 stC2 [(1, 0, 0)] =
      { stC2 with scb := stC2.scb ++
          [findBestExistingPalette [(1, 0, 0)] stC2.palettes] } ∧
    psStep stC2 [(1, 0, 0)] =
      { stC2 with scb := stC2.scb ++
          [findClosestPaletteIndex (medianCutQuantize [(1, 0, 0)] 16).1 stC2.palettes] } :=
  ⟨ceiling_fallback_behavior.1 stC2 [(1, 0, 0)] 16 (by decide) (by decide),
   ceiling_fallback_behavior.2 stC2 [(1, 0, 0)] (by decide) (by decide)⟩

/-! ## C3 -/

theorem firstArgmin_lt_length [LinearOrder α] :
    ∀ l : List α, l ≠ [] → firstArgmin l < l.length
  | [v], _ => by simp [firstArgmin]
  | v :: w :: ws, _ => by
    have ih := firstArgmin_lt_length (w :: ws) (by simp)
    show (if v ≤ (w :: ws).getD (firstArgmin (w :: ws)) v then 0
      else firstArgmin (w :: ws) + 1) < (v :: w :: ws).length
    split
    · simp
    · simp only [List.length_cons] at ih ⊢
      omega

theorem indexOf_lt_length_of_mem {α : Type} [BEq α] [LawfulBEq α] {l : List α} {a : α}
    (h : a ∈ l) : l.indexOf a < l.length := by
  unfold List.indexOf
  apply List.findIdx_lt_length_of_exists
  exact ⟨a, h, by simp⟩

theorem optCreateNew_scb (numColors : ℕ) (st : QState) (row : List Pixel) :
    ∃ e, (optCreateNew numColors st row).scb = st.scb ++ [e] ∧
      ∃ ptail, (optCreateNew numColors st row).palettes = st.palettes ++ ptail := by
  by_cases hmem : (medianCutQuantize row numColors).1 ∈ st.palettes
  · exact ⟨st.palettes.indexOf (medianCutQuantize row numColors).1,
      by simp [optCreateNew, hmem], [], by simp [optCreateNew, hmem]⟩
  · by_cases hlen : st.palettes.length < 16
    · exact ⟨st.palettes.length, by simp [optCreateNew, hmem, hlen],
        [(medianCutQuantize row numColors).1], by simp [optCreateNew, hmem, hlen]⟩
    · exact ⟨findBestExistingPalette row st.palettes,
        by simp [optCreateNew, hmem, hlen], [], by simp [optCreateNew, hmem, hlen]⟩

theorem optStep_scb (numColors : ℕ) (t : WithTop ℚ) (st : QState) (row : List Pixel) :
    ∃ e, (optStep numColors t st row).scb = st.scb ++ [e] ∧
      ∃ ptail, (optStep numColors t st row).palettes = st.palettes ++ ptail := by
  match h : st.scb.getLast? with
  | some prev =>
    by_cases hc : ((paletteError row (st.palettes.getD prev []) : ℚ) : WithTop ℚ) ≤ t
    · refine ⟨prev, ?_, [], ?_⟩ <;>
        simp only [optStep, h, if_pos hc, List.append_nil]
    · obtain ⟨e, he, ptail, hp⟩ := optCreateNew_scb numColors st row
      refine ⟨e, ?_, ptail, ?_⟩ <;>
        simp only [optStep, h, if_neg hc, he, hp]
  | none =>
    obtain ⟨e, he, ptail, hp⟩ := optCreateNew_scb numColors st row
    refine ⟨e, ?_, ptail, ?_⟩ <;> simp only [optStep, h, he, hp]

theorem optCreateNew_inv (numColors : ℕ) (st : QState) (row : List Pixel)
    (hinv : ∀ e ∈ st.scb, e < st.palettes.length) :
    ∀ e ∈ (optCreateNew numColors st row).scb,
      e < (optCreateNew numColors st row).palettes.length := by
  by_cases hmem : (medianCutQuantize row numColors).1 ∈ st.palettes
  · simp only [optCreateNew, if_pos hmem]
    intro e he
    simp only [List.mem_append, List.mem_singleton] at he
    rcases he with he | he
    · exact hinv e he
    · rw [he]
      exact indexOf_lt_length_of_mem hmem
  · by_cases hlen : st.palettes.length < 16
    · simp only [optCreateNew, if_neg hmem, if_pos hlen]
      intro e he
      simp only [List.mem_append, List.mem_singleton] at he
      simp only [List.length_append, List.length_singleton]
      rcases he with he | he
      · have := hinv e he; omega
      · omega
    · simp only [optCreateNew, if_neg hmem, if_neg hlen]
      intro e he
      simp only [List.mem_append, List.mem_singleton] at he
      rcases he with he | he
      · exact hinv e he
      · rw [he]
        have hne : st.palettes.map (paletteError row) ≠ [] := by
          intro hnil
          simp only [List.map_eq_nil_iff] at hnil
          rw [hnil] at hlen
          simp at hlen
        have := firstArgmin_lt_length _ hne
        unfold findBestExistingPalette
        simpa using this

theorem optStep_inv (numColors : ℕ) (t : WithTop ℚ) (st : QState) (row : List Pixel)
    (hinv : ∀ e ∈ st.scb, e < st.palettes.length) :
    ∀ e ∈ (optStep numColors t st row).scb,
      e < (optStep numColors t st row).palettes.length := by
  match h : st.scb.getLast? with
  | some prev =>
    by_cases hc : ((paletteError row (st.palettes.getD prev []) : ℚ) : WithTop ℚ) ≤ t
    · simp only [optStep, h, if_pos hc]
      intro e he
      simp only [List.mem_append, List.mem_singleton] at he
      rcases he with he | he
      · exact hinv e he
      · rw [he]
        exact hinv prev (List.mem_of_mem_getLast? h)
    · simpa only [optStep, h, if_neg hc] using optCreateNew_inv numColors st row hinv
  | none =>
    simpa only [optStep, h] using optCreateNew_inv numColors st row hinv

theorem optRun_props (numColors : ℕ) (t : WithTop ℚ) :
    ∀ (rows : List (List Pixel)) (st : QState),
      (∀ e ∈ st.scb, e < st.palettes.length) →
      (∃ tail, (rows.foldl (optStep numColors t) st).scb = st.scb ++ tail ∧
        tail.length = rows.length) ∧
      (∃ ptail, (rows.foldl (optStep numColors t) st).palettes = st.palettes ++ ptail) ∧
      (∀ e ∈ (rows.foldl (optStep numColors t) st).scb,
        e < (rows.foldl (optStep numColors t) st).palettes.length) := by
  intro rows
  induction rows with
  | nil =>
    intro st hinv
    exact ⟨⟨[], by simp, rfl⟩, ⟨[], by simp⟩, hinv⟩
  | cons r rs ih =>
    intro st hinv
    obtain ⟨e, he, ptail, hp⟩ := optStep_scb numColors t st r
    have hinv' := optStep_inv numColors t st r hinv
    obtain ⟨⟨tail, htail, hlen⟩, ⟨ptail2, hp2⟩, hinv2⟩ := ih (optStep numColors t st r) hinv'
    refine ⟨⟨e :: tail, ?_, by simp [hlen]⟩, ⟨ptail ++ ptail2, ?_⟩, ?_⟩
    · simp only [List.foldl_cons, htail, he, List.append_assoc, List.singleton_append]
    · simp only [List.foldl_cons, hp2, hp, List.append_assoc]
    · simpa only [List.foldl_cons] using hinv2

theorem optRun_top_all (numColors : ℕ) :
    ∀ (rows : List (List Pixel)) (st : QState) (P : Palette),
      st.palettes = [P] → st.scb ≠ [] → (∀ e ∈ st.scb, e = 0) →
      (rows.foldl (optStep numColors ⊤) st).palettes = [P] ∧
      (rows.foldl (optStep numColors ⊤) st).scb ≠ [] ∧
      (∀ e ∈ (rows.foldl (optStep numColors ⊤) st).scb, e = 0) := by
  intro rows
  induction rows with
  | nil =>
    intro st P h1 h2 h3
    exact ⟨h1, h2, h3⟩
  | cons r rs ih =>
    intro st P h1 h2 h3
    obtain ⟨prev, hprev⟩ := Option.isSome_iff_exists.mp
      (by rwa [List.getLast?_isSome])
    have hprev0 : prev = 0 := h3 prev (List.mem_of_mem_getLast? hprev)
    have hstep : optStep numColors ⊤ st r = { st with scb := st.scb ++ [prev] } := by
      simp only [optStep, hprev, if_pos le_top]
    rw [List.foldl_cons, hstep]
    apply ih
    · exact h1
    · simp
    · intro e he
      simp only [List.mem_append, List.mem_singleton] at he
      rcases he with he | he
      · exact h3 e he
      · rw [he, hprev0]

/-- C3 (amended): `optimized_quantize` assigns row `y > 0` the palette
assigned to row `y−1` *whenever* the (uint8-wrapped) total squared
nearest-neighbor error of row `y` against that palette is at most
`error_threshold` (the converse fails: a regenerated palette can
deduplicate back to the same index); and with `error_threshold = +∞` it
generates exactly one palette — row 0's — and every SCB byte is zero. -/
theorem optimized_reuse_behavior :
    (∀ (rows : List (List Pixel)) (numColors : ℕ) (threshold : WithTop ℚ) (y : ℕ),
      0 < y → y < rows.length →
      ((paletteError (rows.getD y [])
          ((optimizedQuantize rows numColors threshold).1.getD
            ((optimizedQuantize rows numColors threshold).2.getD (y - 1) 0) []) : ℚ) :
        WithTop ℚ) ≤ threshold →
      (optimizedQuantize rows numColors threshold).2.getD y 0 =
        (optimizedQuantize rows numColors threshold).2.getD (y - 1) 0) ∧
    (∀ (rows : List (List Pixel)) (numColors : ℕ), rows ≠ [] →
      (optimizedQuantize rows numColors ⊤).1 =
        (medianCutQuantize (rows.getD 0 []) numColors).1 ::
          List.replicate 15 (List.replicate numColors ((0 : ℕ), (0 : ℕ), (0 : ℕ))) ∧
      ∀ e ∈ (optimizedQuantize rows numColors ⊤).2, e = 0) := by
  constructor
  · intro rows numColors threshold y hy0 hylen herr
    -- the state after the first y rows
    set S : QState := (rows.take y).foldl (optStep numColors threshold) ⟨[], []⟩ with hSdef
    obtain ⟨⟨tailS, htailS, hlenS⟩, _, hinvS⟩ :=
      optRun_props numColors threshold (rows.take y) ⟨[], []⟩ (by intro e he; simp at he)
    rw [← hSdef] at hinvS
    have hSlen : S.scb.length = y := by
      rw [htailS]
      simp only [List.nil_append, List.length_take] at hlenS ⊢
      rw [hlenS]
      omega
    -- decompose the full run around row y
    have hrowy : rows.getD y [] = rows.get ⟨y, hylen⟩ := by
      rw [List.getD_eq_getElem _ _ hylen]
      rfl
    have hcore : optimizedQuantizeCore rows numColors threshold =
        (rows.drop (y + 1)).foldl (optStep numColors threshold)
          (optStep numColors threshold S (rows.get ⟨y, hylen⟩)) := by
      unfold optimizedQuantizeCore
      conv_lhs => rw [← List.take_append_drop y rows]
      rw [List.foldl_append, ← hSdef, List.drop_eq_get_cons hylen, List.foldl_cons]
    -- the previous SCB entry
    set prev : ℕ := S.scb.getD (y - 1) 0 with hprevdef
    have hSne : S.scb ≠ [] := by
      intro hnil
      rw [hnil] at hSlen
      simp at hSlen
      omega
    have hlast : S.scb.getLast? = some prev := by
      rw [List.getLast?_eq_getElem?, hSlen]
      rw [List.getElem?_eq_getElem (by omega : y - 1 < S.scb.length)]
      rw [hprevdef, List.getD_eq_getElem _ _ (by omega : y - 1 < S.scb.length)]
    have hprevmem : prev ∈ S.scb := by
      rw [hprevdef, List.getD_eq_getElem _ _ (by omega : y - 1 < S.scb.length)]
      exact List.getElem_mem _
    have hprevlt : prev < S.palettes.length := hinvS prev hprevmem
    -- the final state, whatever the branch at row y did
    obtain ⟨ey, hey, ptaily, hpy⟩ :=
      optStep_scb numColors threshold S (rows.get ⟨y, hylen⟩)
    have hinvS' := optStep_inv numColors threshold S (rows.get ⟨y, hylen⟩) hinvS
    obtain ⟨⟨tail2, htail2, _⟩, ⟨ptail2, hp2⟩, _⟩ :=
      optRun_props numColors threshold (rows.drop (y + 1))
        (optStep numColors threshold S (rows.get ⟨y, hylen⟩)) hinvS'
    have hcorescb : (optimizedQuantizeCore rows numColors threshold).scb =
        S.scb ++ ([ey] ++ tail2) := by
      rw [hcore, htail2, hey, List.append_assoc]
    have hcorepal : (optimizedQuantizeCore rows numColors threshold).palettes =
        S.palettes ++ (ptaily ++ ptail2) := by
      rw [hcore, hp2, hpy, List.append_assoc]
    -- the published outputs in terms of the prefix state
    have hout2 : (optimizedQuantize rows numColors threshold).2 =
        (optimizedQuantizeCore rows numColors threshold).scb := rfl
    have houtprev : (optimizedQuantize rows numColors threshold).2.getD (y - 1) 0 = prev := by
      rw [hout2, hcorescb, List.getD_append _ _ _ _ (by omega)]
    have houtpal : (optimizedQuantize rows numColors threshold).1.getD prev [] =
        S.palettes.getD prev [] := by
      show ((optimizedQuantizeCore rows numColors threshold).palettes ++
        List.replicate _ _).getD prev [] = _
      rw [hcorepal, List.append_assoc, List.getD_append _ _ _ _ hprevlt]
    -- the hypothesis is exactly the reuse condition of the step at row y
    rw [houtprev, houtpal, hrowy] at herr
    have hstep : optStep numColors threshold S (rows.get ⟨y, hylen⟩) =
        { S with scb := S.scb ++ [prev] } := by
      simp only [optStep, hlast, if_pos herr]
    have heyprev : ey = prev := by
      have := hey
      rw [hstep] at this
      simpa using this.symm
    rw [houtprev, hout2, hcorescb, heyprev]
    rw [List.getD_append_right _ _ _ _ (by omega), hSlen]
    simp
  · intro rows numColors hne
    obtain ⟨r0, rest, rfl⟩ := List.exists_cons_of_ne_nil hne
    have hst1 : optStep numColors ⊤ ⟨[], []⟩ r0 =
        ⟨[(medianCutQuantize r0 numColors).1], [0]⟩ := by
      show optCreateNew numColors ⟨[], []⟩ r0 = _
      unfold optCreateNew
      rw [if_neg (List.not_mem_nil _), if_pos (by simp)]
      rfl
    have hrun := optRun_top_all numColors rest ⟨[(medianCutQuantize r0 numColors).1], [0]⟩
      (medianCutQuantize r0 numColors).1 rfl (by simp) (by intro e he; simpa using he)
    have hcore : optimizedQuantizeCore (r0 :: rest) numColors ⊤ =
        rest.foldl (optStep numColors ⊤) ⟨[(medianCutQuantize r0 numColors).1], [0]⟩ := by
      unfold optimizedQuantizeCore
      rw [List.foldl_cons, hst1]
    constructor
    · show (optimizedQuantizeCore (r0 :: rest) numColors ⊤).palettes ++
        List.replicate _ _ = _
      rw [hcore, hrun.1]
      simp only [List.length_singleton, List.getD_cons_zero]
      rfl
    · intro e he
      have h2 : (optimizedQuantize (r0 :: rest) numColors ⊤).2 =
          (optimizedQuantizeCore (r0 :: rest) numColors ⊤).scb := rfl
      rw [h2, hcore] at he
      exact hrun.2.2 e he

/-- C3 counterexample: on the two identical 17-color rows of `rowC3`
with `error_threshold = 0`, row 1 *is* assigned row 0's palette (the
regenerated palette deduplicates to index 0) even though its quantization
error against that palette exceeds the threshold — refuting the claimed
"exactly when". -/
theorem optimized_reuse_iff_counterexample :
    (optimizedQuantize [rowC3, rowC3] 16 ((0 : ℚ) : WithTop ℚ)).2.getD 1 0 =
      (optimizedQuantize [rowC3, rowC3] 16 ((0 : ℚ) : WithTop ℚ)).2.getD 0 0 ∧
    ¬ (((paletteError ([rowC3, rowC3].getD 1 [])
        ((optimizedQuantize [rowC3, rowC3] 16 ((0 : ℚ) : WithTop ℚ)).1.getD
          ((optimizedQuantize [rowC3, rowC3] 16 ((0 : ℚ) : WithTop ℚ)).2.getD 0 0) []) : ℚ) :
      WithTop ℚ) ≤ ((0 : ℚ) : WithTop ℚ)) := by
  set_option maxRecDepth 100000 in decide

/-- Witness for C3's amended theorem: a constant two-row image with
`threshold = ⊤` reuses row 0's palette on row 1, and a one-row image with
`threshold = ⊤` generates exactly one palette with SCB zero. -/
theorem optimized_reuse_behavior_witness :
    ((optimizedQuantize [[((5 : ℕ), (5 : ℕ), (5 : ℕ))], [((5 : ℕ), (5 : ℕ), (5 : ℕ))]]
        16 ⊤).2.getD 1 0 =
      (optimizedQuantize [[((5 : ℕ), (5 : ℕ), (5 : ℕ))], [((5 : ℕ), (5 : ℕ), (5 : ℕ))]]
        16 ⊤).2.getD 0 0) ∧
    ((optimizedQuantize [[((5 : ℕ), (5 : ℕ), (5 : ℕ))]] 16 ⊤).1 =
      (medianCutQuantize ([[((5 : ℕ), (5 : ℕ), (5 : ℕ))]].getD 0 []) 16).1 ::
        List.replicate 15 (List.replicate 16 ((0 : ℕ), (0 : ℕ), (0 : ℕ))) ∧
      ∀ e ∈ (optimizedQuantize [[((5 : ℕ), (5 : ℕ), (5 : ℕ))]] 16 ⊤).2, e = 0) :=
  ⟨optimized_reuse_behavior.1 _ 16 ⊤ 1 (by decide) (by decide) le_top,
   optimized_reuse_behavior.2 [[((5 : ℕ), (5 : ℕ), (5 : ℕ))]] 16 (by simp)⟩

/-! ## C4 -/

theorem le_listMax : ∀ (l : List ℕ) (x : ℕ), x ∈ l → x ≤ listMax l := by
  intro l
  induction l with
  | nil => intro x hx; simp at hx
  | cons a as ih =>
    intro x hx
    rcases List.mem_cons.mp hx with h | h
    · rw [h]
      exact Nat.le_max_left _ _
    · exact le_trans (ih x h) (Nat.le_max_right _ _)

theorem foldr_min_le_init : ∀ (l : List ℕ) (a : ℕ), l.foldr min a ≤ a := by
  intro l
  induction l with
  | nil => intro a; exact le_refl a
  | cons b bs ih =>
    intro a
    exact le_trans (Nat.min_le_right _ _) (ih a)

theorem foldr_min_le_mem : ∀ (l : List ℕ) (a x : ℕ), x ∈ l → l.foldr min a ≤ x := by
  intro l
  induction l with
  | nil => intro a x hx; simp at hx
  | cons b bs ih =>
    intro a x hx
    rcases List.mem_cons.mp hx with h | h
    · rw [h]
      exact Nat.min_le_left _ _
    · exact le_trans (Nat.min_le_right _ _) (ih a x h)

theorem listMin_le : ∀ (l : List ℕ) (x : ℕ), x ∈ l → listMin l ≤ x := by
  intro l
  match l with
  | [] => intro x hx; simp at hx
  | a :: as =>
    intro x hx
    rcases List.mem_cons.mp hx with h | h
    · rw [h]
      exact foldr_min_le_init as a
    · exact foldr_min_le_mem as a x h

theorem firstArgmax_lt_length [LinearOrder α] :
    ∀ l : List α, l ≠ [] → firstArgmax l < l.length
  | [v], _ => by simp [firstArgmax]
  | v :: w :: ws, _ => by
    have ih := firstArgmax_lt_length (w :: ws) (by simp)
    show (if (w :: ws).getD (firstArgmax (w :: ws)) v > v then firstArgmax (w :: ws) + 1
      else 0) < (v :: w :: ws).length
    split
    · simp only [List.length_cons] at ih ⊢
      omega
    · simp

theorem getD_indep {α : Type u} (l : List α) (i : ℕ) (hi : i < l.length) (d1 d2 : α) :
    l.getD i d1 = l.getD i d2 := by
  rw [List.getD_eq_getElem _ _ hi, List.getD_eq_getElem _ _ hi]

theorem le_getD_firstArgmax [LinearOrder α] :
    ∀ (l : List α) (x : α), x ∈ l → ∀ d : α, x ≤ l.getD (firstArgmax l) d := by
  intro l
  induction l with
  | nil => intro x hx; simp at hx
  | cons v vs ih =>
    intro x hx d
    show x ≤ (v :: vs).getD
      (if vs.getD (firstArgmax vs) v > v then firstArgmax vs + 1 else 0) d
    split
    · next hgt =>
      have hvs : vs ≠ [] := by
        intro hnil
        rw [hnil] at hgt
        simp at hgt
      have hj : firstArgmax vs < vs.length := firstArgmax_lt_length vs hvs
      simp only [List.getD_cons_succ]
      rcases List.mem_cons.mp hx with h | h
      · rw [h]
        exact le_of_lt (lt_of_lt_of_le hgt (le_of_eq (getD_indep vs (firstArgmax vs) hj v d)))
      · exact ih x h d
    · next hle =>
      push_neg at hle
      simp only [List.getD_cons_zero]
      rcases List.mem_cons.mp hx with h | h
      · exact le_of_eq h
      · exact le_trans (ih x h v) hle

theorem colorRange_of_le_one (b : Bucket) (h : b.length ≤ 1) : colorRange b = 0 := by
  match b with
  | [] => rfl
  | [p] =>
    show colorRange [p] = 0
    simp [colorRange, listMax, listMin]
  | p :: q :: rest => simp at h

theorem colorRange_pos (b : Bucket) (p q : Pixel) (hp : p ∈ b) (hq : q ∈ b)
    (hne : p ≠ q) : 0 < colorRange b := by
  have hbne : b ≠ [] := by
    intro hnil
    rw [hnil] at hp
    simp at hp
  unfold colorRange
  rw [if_neg hbne]
  have hchan : chR p ≠ chR q ∨ chG p ≠ chG q ∨ chB p ≠ chB q := by
    by_contra hall
    push_neg at hall
    exact hne (Prod.ext hall.1 (Prod.ext hall.2.1 hall.2.2))
  rcases hchan with h | h | h
  · have h1 := le_listMax (b.map chR) (chR p) (List.mem_map_of_mem chR hp)
    have h2 := le_listMax (b.map chR) (chR q) (List.mem_map_of_mem chR hq)
    have h3 := listMin_le (b.map chR) (chR p) (List.mem_map_of_mem chR hp)
    have h4 := listMin_le (b.map chR) (chR q) (List.mem_map_of_mem chR hq)
    omega
  · have h1 := le_listMax (b.map chG) (chG p) (List.mem_map_of_mem chG hp)
    have h2 := le_listMax (b.map chG) (chG q) (List.mem_map_of_mem chG hq)
    have h3 := listMin_le (b.map chG) (chG p) (List.mem_map_of_mem chG hp)
    have h4 := listMin_le (b.map chG) (chG q) (List.mem_map_of_mem chG hq)
    omega
  · have h1 := le_listMax (b.map chB) (chB p) (List.mem_map_of_mem chB hp)
    have h2 := le_listMax (b.map chB) (chB q) (List.mem_map_of_mem chB hq)
    have h3 := listMin_le (b.map chB) (chB p) (List.mem_map_of_mem chB hp)
    have h4 := listMin_le (b.map chB) (chB q) (List.mem_map_of_mem chB hq)
    omega

theorem npUnique_nodup (l : List Pixel) : (npUnique l).Nodup :=
  List.nodup_dedup _

theorem npUnique_sorted (l : List Pixel) : List.Sorted lexLe (npUnique l) :=
  List.Pairwise.sublist (List.dedup_sublist _) (List.sorted_insertionSort lexLe l)

theorem npUnique_toFinset (l : List Pixel) : (npUnique l).toFinset = l.toFinset := by
  unfold npUnique
  have hdedup : (List.insertionSort lexLe l).dedup.toFinset =
      (List.insertionSort lexLe l).toFinset := by
    ext x
    simp [List.mem_dedup]
  rw [hdedup]
  exact List.toFinset_eq_of_perm _ _ (List.perm_insertionSort lexLe l)

theorem npUnique_length_eq_card (l : List Pixel) :
    (npUnique l).length = l.toFinset.card := by
  rw [← npUnique_toFinset l, List.toFinset_card_of_nodup (npUnique_nodup l)]

theorem card_flatten_le (bs : List Bucket) :
    bs.flatten.toFinset.card ≤ (bs.map (fun b => b.toFinset.card)).sum := by
  induction bs with
  | nil => simp
  | cons b rest ih =>
    simp only [List.flatten_cons, List.toFinset_append, List.map_cons, List.sum_cons]
    exact le_trans (Finset.card_union_le _ _) (Nat.add_le_add_left ih _)

theorem sum_le_of_all_le_one : ∀ l : List ℕ, (∀ x ∈ l, x ≤ 1) → l.sum ≤ l.length := by
  intro l
  induction l with
  | nil => intro _; simp
  | cons a as ih =>
    intro h
    simp only [List.sum_cons, List.length_cons]
    have ha := h a (by simp)
    have := ih (fun x hx => h x (by simp [hx]))
    omega

/-- If the pixels spread over the buckets still hold more than
`bs.length` distinct colors, some bucket holds two distinct pixels. -/
theorem exists_two_distinct (bs : List Bucket)
    (h : bs.length < bs.flatten.toFinset.card) :
    ∃ b ∈ bs, ∃ p ∈ b, ∃ q ∈ b, p ≠ q := by
  by_contra hall
  push_neg at hall
  have hone : ∀ b ∈ bs, b.toFinset.card ≤ 1 := by
    intro b hb
    by_contra hcard
    push_neg at hcard
    obtain ⟨p, hp, q, hq, hpq⟩ := Finset.one_lt_card.mp hcard
    exact hpq (hall b hb p (List.mem_toFinset.mp hp) q (List.mem_toFinset.mp hq))
  have h1 := card_flatten_le bs
  have h2 := sum_le_of_all_le_one (bs.map (fun b => b.toFinset.card))
    (fun x hx => by
      obtain ⟨b, hb, hbx⟩ := List.mem_map.mp hx
      rw [← hbx]
      exact hone b hb)
  rw [List.length_map] at h2
  omega

theorem medianCutSplit_parts (b : Bucket) (h : 2 ≤ b.length) :
    (medianCutSplit b).1.length = b.length / 2 ∧
    (medianCutSplit b).2.length = b.length - b.length / 2 ∧
    ∀ x : Pixel, (x ∈ (medianCutSplit b).1 ∨ x ∈ (medianCutSplit b).2) ↔ x ∈ b := by
  simp only [medianCutSplit, if_neg (by omega : ¬ b.length ≤ 1)]
  refine ⟨?_, ?_, ?_⟩
  · simp only [List.length_take, List.length_insertionSort]
    omega
  · simp only [List.length_drop, List.length_insertionSort]
  · intro x
    rw [← List.mem_append, List.take_append_drop]
    exact (List.perm_insertionSort _ b).mem_iff

/-- With more than 16 distinct colors among the pixels, the splitting
loop always reaches exactly 16 buckets: the early-exit branch (an empty
split half) is unreachable, because some bucket must hold two distinct
pixels, the selected bucket's range therefore is positive, and a bucket
with positive range has at least two pixels, both split halves being
nonempty. -/
theorem medianCutLoop_length :
    ∀ (fuel : ℕ) (bs : List Bucket), bs.length ≤ 16 → 16 ≤ bs.length + fuel →
      16 < bs.flatten.toFinset.card → (medianCutLoop 16 fuel bs).length = 16 := by
  intro fuel
  induction fuel with
  | zero =>
    intro bs h1 h2 _
    show bs.length = 16
    omega
  | succ fuel ih =>
    intro bs h1 h2 h3
    by_cases hlt : bs.length < 16
    · have hbsne : bs ≠ [] := by
        intro hnil
        rw [hnil] at h3
        simp at h3
      have hi : findLargestBucket bs < bs.length := by
        have := firstArgmax_lt_length (bs.map colorRange)
          (by simpa using hbsne)
        simpa [findLargestBucket] using this
      set i := findLargestBucket bs with hidef
      set L := bs.getD i [] with hLdef
      obtain ⟨b0, hb0, p, hp, q, hq, hpq⟩ := exists_two_distinct bs (by omega)
      have hmax : colorRange b0 ≤ colorRange L := by
        have hh := le_getD_firstArgmax (bs.map colorRange) (colorRange b0)
          (List.mem_map_of_mem colorRange hb0) (colorRange [])
        rwa [List.getD_map, ← findLargestBucket, ← hidef, ← hLdef] at hh
      have hLrange : 0 < colorRange L :=
        lt_of_lt_of_le (colorRange_pos b0 p q hp hq hpq) hmax
      have hL2 : 2 ≤ L.length := by
        by_contra hc
        push_neg at hc
        rw [colorRange_of_le_one L (by omega)] at hLrange
        omega
      obtain ⟨hl1, hl2, hmem⟩ := medianCutSplit_parts L hL2
      have hb1ne : (medianCutSplit L).1 ≠ [] := by
        intro hnil
        rw [hnil] at hl1
        simp only [List.length_nil] at hl1
        omega
      have hb2ne : (medianCutSplit L).2 ≠ [] := by
        intro hnil
        rw [hnil] at hl2
        simp only [List.length_nil] at hl2
        omega
      have hstep : medianCutLoop 16 (fuel + 1) bs =
          medianCutLoop 16 fuel
            (bs.eraseIdx i ++ [(medianCutSplit L).1, (medianCutSplit L).2]) := by
        conv_lhs => rw [medianCutLoop]
        rw [if_pos hlt]
        show (if (medianCutSplit L).1 = [] ∨ (medianCutSplit L).2 = [] then
            bs.eraseIdx i ++ [L]
          else medianCutLoop 16 fuel
            (bs.eraseIdx i ++ [(medianCutSplit L).1, (medianCutSplit L).2])) = _
        rw [if_neg (by simp [hb1ne, hb2ne])]
      have herase : bs.eraseIdx i = bs.take i ++ bs.drop (i + 1) :=
        List.eraseIdx_eq_take_drop_succ bs i
      have heq : bs = bs.take i ++ L :: bs.drop (i + 1) := by
        conv_lhs => rw [← List.take_append_drop i bs, List.drop_eq_getElem_cons hi]
        rw [hLdef, List.getD_eq_getElem _ _ hi]
      have hLmem : L ∈ bs := by
        rw [hLdef, List.getD_eq_getElem _ _ hi]
        exact List.getElem_mem _
      have hflat : (bs.eraseIdx i ++
          [(medianCutSplit L).1, (medianCutSplit L).2]).flatten.toFinset =
          bs.flatten.toFinset := by
        ext x
        simp only [List.mem_toFinset, List.mem_flatten]
        constructor
        · rintro ⟨l, hl, hx⟩
          simp only [herase, List.mem_append, List.mem_cons,
            List.not_mem_nil, or_false] at hl
          rcases hl with (hl | hl) | hl | hl
          · exact ⟨l, List.mem_of_mem_take hl, hx⟩
          · exact ⟨l, List.mem_of_mem_drop hl, hx⟩
          · exact ⟨L, hLmem, (hmem x).mp (Or.inl (hl ▸ hx))⟩
          · exact ⟨L, hLmem, (hmem x).mp (Or.inr (hl ▸ hx))⟩
        · rintro ⟨l, hl, hx⟩
          rw [heq] at hl
          simp only [List.mem_append, List.mem_cons] at hl
          rcases hl with hl | hl | hl
          · exact ⟨l, by simp [herase, List.mem_append, hl], hx⟩
          · rcases (hmem x).mpr (hl ▸ hx) with hx1 | hx2
            · exact ⟨(medianCutSplit L).1, by simp, hx1⟩
            · exact ⟨(medianCutSplit L).2, by simp, hx2⟩
          · exact ⟨l, by simp [herase, List.mem_append, hl], hx⟩
      have hlen' : (bs.eraseIdx i ++
          [(medianCutSplit L).1, (medianCutSplit L).2]).length = bs.length + 1 := by
        rw [List.length_append, List.length_eraseIdx_of_lt hi]
        simp only [List.length_cons, List.length_nil]
        omega
      rw [hstep]
      exact ih _ (by omega) (by omega) (by rw [hflat]; exact h3)
    · have hdone : medianCutLoop 16 (fuel + 1) bs = bs := by
        conv_lhs => rw [medianCutLoop]
        rw [if_neg hlt]
      rw [hdone]
      omega

/-- C4: for a nonempty pixel bag with K = 16, `median_cut_quantize`
returns a palette of exactly 16 entries.  With at most 16 distinct colors
the palette is the distinct colors in ascending lexicographic order
padded with black to 16; otherwise the splitting loop produces exactly 16
buckets and each entry is the componentwise mean of a bucket truncated
toward zero (the padding clause is vacuous, as fewer than 16 buckets
never occur). -/
theorem median_cut_palette_shape (pixels : List Pixel) (_hne : pixels ≠ []) :
    (medianCutQuantize pixels 16).1.length = 16 ∧
    ((npUnique pixels).length ≤ 16 →
      (medianCutQuantize pixels 16).1 =
        npUnique pixels ++
          List.replicate (16 - (npUnique pixels).length) ((0 : ℕ), (0 : ℕ), (0 : ℕ)) ∧
      List.Sorted lexLe (npUnique pixels) ∧ (npUnique pixels).Nodup ∧
      (npUnique pixels).toFinset = pixels.toFinset) ∧
    (16 < (npUnique pixels).length →
      (medianCutQuantize pixels 16).1 = (medianCutLoop 16 16 [pixels]).map bucketMean ∧
      (medianCutLoop 16 16 [pixels]).length = 16 ∧
      ∀ b ∈ medianCutLoop 16 16 [pixels],
        bucketMean b =
          (⌊((b.map chR).sum : ℚ) / ((b.length : ℕ) : ℚ)⌋₊,
           ⌊((b.map chG).sum : ℚ) / ((b.length : ℕ) : ℚ)⌋₊,
           ⌊((b.map chB).sum : ℚ) / ((b.length : ℕ) : ℚ)⌋₊)) := by
  by_cases hu : (npUnique pixels).length ≤ 16
  · have hq : (medianCutQuantize pixels 16).1 =
        npUnique pixels ++
          List.replicate (16 - (npUnique pixels).length) ((0 : ℕ), (0 : ℕ), (0 : ℕ)) := by
      simp only [medianCutQuantize, if_pos hu]
    refine ⟨?_,
      fun _ => ⟨hq, npUnique_sorted _, npUnique_nodup _, npUnique_toFinset _⟩,
      fun hgt => absurd hgt (by omega)⟩
    rw [hq, List.length_append, List.length_replicate]
    omega
  · push_neg at hu
    have hcard : 16 < pixels.toFinset.card := by
      rw [← npUnique_length_eq_card]
      exact hu
    have hlooplen : (medianCutLoop 16 16 [pixels]).length = 16 :=
      medianCutLoop_length 16 [pixels] (by simp) (by simp) (by simpa using hcard)
    have hq : (medianCutQuantize pixels 16).1 =
        (medianCutLoop 16 16 [pixels]).map bucketMean := by
      simp only [medianCutQuantize, if_neg (by omega : ¬ (npUnique pixels).length ≤ 16)]
    refine ⟨by rw [hq, List.length_map, hlooplen],
      fun hle => absurd hle (by omega), fun _ => ⟨hq, hlooplen, ?_⟩⟩
    intro b _
    unfold bucketMean
    rw [Nat.floor_div_eq_div, Nat.floor_div_eq_div, Nat.floor_div_eq_div]

/-- Witness for C4 on the single black pixel (the trivial-input branch). -/
theorem median_cut_palette_shape_witness :
    (medianCutQuantize [((0 : ℕ), (0 : ℕ), (0 : ℕ))] 16).1.length = 16 ∧
    ((npUnique [((0 : ℕ), (0 : ℕ), (0 : ℕ))]).length ≤ 16 →
      (medianCutQuantize [((0 : ℕ), (0 : ℕ), (0 : ℕ))] 16).1 =
        npUnique [((0 : ℕ), (0 : ℕ), (0 : ℕ))] ++
          List.replicate (16 - (npUnique [((0 : ℕ), (0 : ℕ), (0 : ℕ))]).length)
            ((0 : ℕ), (0 : ℕ), (0 : ℕ)) ∧
      List.Sorted lexLe (npUnique [((0 : ℕ), (0 : ℕ), (0 : ℕ))]) ∧
      (npUnique [((0 : ℕ), (0 : ℕ), (0 : ℕ))]).Nodup ∧
      (npUnique [((0 : ℕ), (0 : ℕ), (0 : ℕ))]).toFinset =
        [((0 : ℕ), (0 : ℕ), (0 : ℕ))].toFinset) ∧
    (16 < (npUnique [((0 : ℕ), (0 : ℕ), (0 : ℕ))]).length →
      (medianCutQuantize [((0 : ℕ), (0 : ℕ), (0 : ℕ))] 16).1 =
        (medianCutLoop 16 16 [[((0 : ℕ), (0 : ℕ), (0 : ℕ))]]).map bucketMean ∧
      (medianCutLoop 16 16 [[((0 : ℕ), (0 : ℕ), (0 : ℕ))]]).length = 16 ∧
      ∀ b ∈ medianCutLoop 16 16 [[((0 : ℕ), (0 : ℕ), (0 : ℕ))]],
        bucketMean b =
          (⌊((b.map chR).sum : ℚ) / ((b.length : ℕ) : ℚ)⌋₊,
           ⌊((b.map chG).sum : ℚ) / ((b.length : ℕ) : ℚ)⌋₊,
           ⌊((b.map chB).sum : ℚ) / ((b.length : ℕ) : ℚ)⌋₊)) :=
  median_cut_palette_shape [((0 : ℕ), (0 : ℕ), (0 : ℕ))] (by simp)
